import Mathlib

/-!
# weblog parser: format detection, extraction and field validation

A shallow embedding of `modules/weblog/parser.go`: the `groupMap` helpers,
`csvParser` (`newCSVParser`, `parse`), `newParser`, `validateResult`, the
package-level regular expressions and the package-level `reqParser`.

Conventions of the embedding

* A Go `map[string]string` is an association list. `validateResult` visits the
  entries of its argument in list order, so a statement quantified over every
  list covers every iteration order of the Go map; `newParser`, which hands
  `validateResult` the map that `parse` filled, takes the visiting order as a
  parameter (`VisitOrder`), and its properties hold for every order.
* A Go `error` is `Option Error`; `none` is `nil`.
* A run-time panic (index out of range) is `Except.error`; a normal return is
  `Except.ok`.
* `reqParser` is a package-level variable whose scratch map `data` is mutated
  by `validateResult`; the functions that reach it take its current scratch map
  and return the new one.
-/

namespace weblog

/-! ## Regular expressions (Go `regexp`, the fragment used by the package) -/

/-- Abstract syntax of the regular expressions used by the package. A character
class is given by its membership test. -/
inductive Regex where
  | never : Regex
  | eps : Regex
  | cls (p : Char → Bool) : Regex
  | seq (a b : Regex) : Regex
  | alt (a b : Regex) : Regex
  | star (a : Regex) : Regex

namespace Regex

/-- Does the expression accept the empty string. -/
def nullable : Regex → Bool
  | never => false
  | eps => true
  | cls _ => false
  | seq a b => nullable a && nullable b
  | alt a b => nullable a || nullable b
  | star _ => true

/-- Brzozowski derivative of the expression by one character. -/
def deriv : Regex → Char → Regex
  | never, _ => never
  | eps, _ => never
  | cls p, c => if p c then eps else never
  | seq a b, c =>
    if nullable a then alt (seq (deriv a c) b) (deriv b c) else seq (deriv a c) b
  | alt a b, c => alt (deriv a c) (deriv b c)
  | star a, c => seq (deriv a c) (star a)

/-- Some prefix of the input is in the language of the expression. -/
def matchAt : Regex → List Char → Bool
  | r, [] => nullable r
  | r, c :: cs => nullable r || matchAt (deriv r c) cs

/-- Some substring of the input, starting at any position, is in the language
of the expression. -/
def search (r : Regex) : List Char → Bool
  | [] => matchAt r []
  | c :: cs => matchAt r (c :: cs) || search r cs

/-- The Go method `(*Regexp).MatchString`: reports whether the string contains
any match of the expression (the match is not anchored). -/
def MatchString (r : Regex) (s : String) : Bool :=
  search r s.toList

/-- One or more repetitions, `a+`. -/
def plus (a : Regex) : Regex := seq a (star a)

/-- A single literal character. -/
def chr (c : Char) : Regex := cls (fun x => x == c)

/-- A literal string. -/
def lit : List Char → Regex
  | [] => eps
  | [c] => chr c
  | c :: cs => seq (chr c) (lit cs)

/-- The class `\d`: ASCII decimal digits. -/
def digit : Regex := cls (fun c => '0' ≤ c && c ≤ '9')

end Regex

/-- Go: `regexp.MustCompile("[\da-z.:-]+")`. -/
def reVhost : Regex :=
  Regex.plus (Regex.cls (fun c =>
    ('0' ≤ c && c ≤ '9') || ('a' ≤ c && c ≤ 'z') || c == '.' || c == ':' || c == '-'))

/-- Go: `regexp.MustCompile("[\da-f.:]+|localhost")`. -/
def reAddress : Regex :=
  Regex.alt
    (Regex.plus (Regex.cls (fun c =>
      ('0' ≤ c && c ≤ '9') || ('a' ≤ c && c ≤ 'f') || c == '.' || c == ':')))
    (Regex.lit "localhost".toList)

/-- Go: `regexp.MustCompile("[1-9]\d{2}")`. -/
def reCode : Regex :=
  Regex.seq (Regex.cls (fun c => '1' ≤ c && c ≤ '9')) (Regex.seq Regex.digit Regex.digit)

/-- Go: `regexp.MustCompile("\d+|-")`. -/
def reBytesSent : Regex :=
  Regex.alt (Regex.plus Regex.digit) (Regex.chr '-')

/-- Go: `regexp.MustCompile("\d+|-")`. -/
def reResponseLength : Regex :=
  Regex.alt (Regex.plus Regex.digit) (Regex.chr '-')

/-- Go: `regexp.MustCompile("\d+|\d+\.\d+|-")`. -/
def reResponseTime : Regex :=
  Regex.alt (Regex.plus Regex.digit)
    (Regex.alt
      (Regex.seq (Regex.plus Regex.digit) (Regex.seq (Regex.chr '.') (Regex.plus Regex.digit)))
      (Regex.chr '-'))

/-- Go: `regexp.MustCompile("[A-Z]+")`. -/
def reHTTPMethod : Regex :=
  Regex.plus (Regex.cls (fun c => 'A' ≤ c && c ≤ 'Z'))

/-- Go: `regexp.MustCompile("HTTP/[0-9.]+")`. -/
def reHTTPVersion : Regex :=
  Regex.seq (Regex.lit "HTTP/".toList)
    (Regex.plus (Regex.cls (fun c => ('0' ≤ c && c ≤ '9') || c == '.')))

/-! ## Field keys -/

/-- Modelled from the spec: the key constants are declared outside `parser.go`;
their string values are the field keys listed in the data model. -/
def keyCode : String := "code"

/-- Modelled from the spec: key constant of the virtual host field. -/
def keyVhost : String := "vhost"

/-- Modelled from the spec: key constant of the client address field. -/
def keyAddress : String := "address"

/-- Modelled from the spec: key constant of the bytes-sent field. -/
def keyBytesSent : String := "bytes_sent"

/-- Modelled from the spec: key constant of the response length field. -/
def keyRespLength : String := "response_length"

/-- Modelled from the spec: key constant of the response time field. -/
def keyRespTime : String := "response_time"

/-- Modelled from the spec: key constant of the upstream response time field. -/
def keyRespTimeUpstream : String := "response_time_upstream"

/-- Modelled from the spec: key constant of the composite request field. -/
def keyRequest : String := "request"

/-- Modelled from the spec: key constant of the request method sub-field. -/
def keyMethod : String := "method"

/-- Modelled from the spec: key constant of the request URL sub-field. -/
def keyURL : String := "url"

/-- Modelled from the spec: key constant of the protocol version sub-field. -/
def keyVersion : String := "version"

/-- Modelled from the spec: key constant of the catch-all user defined field. -/
def keyUserDefined : String := "user_defined"

/-- Modelled from the spec: the FieldKey enumeration of the data model, the
recognized semantic fields. -/
def fieldKeys : List String :=
  [keyCode, keyVhost, keyAddress, keyBytesSent, keyRespLength, keyRespTime,
   keyRespTimeUpstream, keyRequest, keyMethod, keyURL, keyVersion, keyUserDefined]

/-! ## groupMap -/

/-- Go: `type groupMap map[string]string`. The entries are listed in the order
in which a `range` loop visits them. -/
abbrev groupMap := List (String × String)

/-- Go: `v, ok := gm[key]`; the zero value `""` and `false` when the key is
absent. -/
def groupMap.lookup (gm : groupMap) (key : String) : String × Bool :=
  match gm with
  | [] => ("", false)
  | (k, v) :: rest => if k = key then (v, true) else groupMap.lookup rest key

/-- Go: `func (gm groupMap) has(key string) bool`. -/
def groupMap.has (gm : groupMap) (key : String) : Bool :=
  (groupMap.lookup gm key).2

/-- Go: `func (gm groupMap) get(key string) string`. -/
def groupMap.get (gm : groupMap) (key : String) : String :=
  (groupMap.lookup gm key).1

/-- Go: the assignment `gm[key] = value`: the value of an existing key is
replaced, a new key is added. -/
def groupMap.set (gm : groupMap) (key value : String) : groupMap :=
  match gm with
  | [] => [(key, value)]
  | (k, v) :: rest =>
    if k = key then (key, value) :: rest else (k, v) :: groupMap.set rest key value

/-- Keys of the map, in visiting order. -/
def groupMap.keys (gm : groupMap) : List String :=
  gm.map Prod.fst

/-! ## csvPattern -/

/-- Modelled from the spec: one `(field key, column index)` pair of a pattern.
The type is declared outside `parser.go`; the field names are those the source
uses (`v.Key`, `v.Index`), and the index is a Go `int`. -/
structure csvField where
  Key : String
  Index : Int
  deriving DecidableEq, Repr

/-- Modelled from the spec: a pattern is an ordered sequence of
`(field key, column index)` pairs. -/
abbrev csvPattern := List csvField

/-- Modelled from the spec: `max` is the maximum column index required by the
pattern (0 for the empty pattern, which `isValid` rejects). -/
def csvPattern.max (p : csvPattern) : Int :=
  match p with
  | [] => 0
  | f :: fs => fs.foldl (fun m g => if m < g.Index then g.Index else m) f.Index

/-- Modelled from the spec: `isSorted` holds when the column indices are
strictly increasing in pair order. -/
def csvPattern.isSorted (p : csvPattern) : Bool :=
  match p with
  | [] => true
  | [_] => true
  | f :: g :: rest => decide (f.Index < g.Index) && csvPattern.isSorted (g :: rest)

/-- Modelled from the spec: `isValid` is structural well-formedness: the
pattern is non-empty, every key appears at most once, and no index is
negative. -/
def csvPattern.isValid (p : csvPattern) : Bool :=
  !p.isEmpty && decide (p.map csvField.Key).Nodup && p.all (fun f => decide (0 ≤ f.Index))

/-! ## Tokenizer (`pkg/csvparser`) -/

namespace csvparser

/-- Modelled from the spec: the tokenizer configuration; `parser.go` sets the
two fields `Comma` and `FieldsPerRecord`. -/
structure Parser where
  Comma : Char
  FieldsPerRecord : Int
  deriving DecidableEq, Repr

/-- Modelled from the spec: a tokenization error (quoting unterminated or
otherwise malformed). -/
inductive ParseError where
  | unterminatedQuote
  | malformedQuote
  deriving DecidableEq, Repr

/-- Modelled from the spec: position of the tokenizer inside the current token
(before its first character, inside an unquoted token, inside a quoted token,
after the closing quote). -/
inductive FieldState where
  | start
  | bare (acc : List Char)
  | quoted (acc : List Char)
  | closed (acc : List Char)

/-- Modelled from the spec: the quote character that delimits a quoted token. -/
def quote : Char := Char.ofNat 34

/-- Modelled from the spec: a finished token is put in front of the tokens of
the rest of the line; an error in the rest of the line is an error of the
line. -/
def push (tok : List Char) (r : Except ParseError (List String)) :
    Except ParseError (List String) :=
  match r with
  | .ok toks => .ok (String.mk tok :: toks)
  | .error e => .error e

/-- Modelled from the spec: the tokenizer splits the line at every separator
character; a token that opens with a quote runs to the matching quote, keeps
its inner separators and loses the two quotes; an unterminated quote, a quote
inside an unquoted token, and text after a closing quote are errors. -/
def scan (comma : Char) : FieldState → List Char → Except ParseError (List String)
  | .start, [] => .ok [""]
  | .start, c :: cs =>
    if c = comma then push [] (scan comma .start cs)
    else if c = quote then scan comma (.quoted []) cs
    else scan comma (.bare [c]) cs
  | .bare acc, [] => .ok [String.mk acc.reverse]
  | .bare acc, c :: cs =>
    if c = comma then push acc.reverse (scan comma .start cs)
    else if c = quote then .error .malformedQuote
    else scan comma (.bare (c :: acc)) cs
  | .quoted _, [] => .error .unterminatedQuote
  | .quoted acc, c :: cs =>
    if c = quote then scan comma (.closed acc) cs
    else scan comma (.quoted (c :: acc)) cs
  | .closed acc, [] => .ok [String.mk acc.reverse]
  | .closed acc, c :: cs =>
    if c = comma then push acc.reverse (scan comma .start cs)
    else .error .malformedQuote

/-- Modelled from the spec: `ParseString` tokenizes one line; the number of
tokens is variable and not fixed in advance. The package `pkg/csvparser` is not
part of the source slice. -/
def Parser.ParseString (p : Parser) (line : String) : Except ParseError (List String) :=
  scan p.Comma .start line.toList

end csvparser

/-! ## csvParser -/

deriving instance DecidableEq for Except

/-- A run-time panic of the Go program. -/
inductive Panic where
  | indexOutOfRange (index : Int) (length : Nat)
  deriving DecidableEq, Repr

/-- Go: `csvParser struct { pattern csvPattern; parser csvparser.Parser; data groupMap }`. -/
structure csvParser where
  pattern : csvPattern
  parser : csvparser.Parser
  data : groupMap
  deriving DecidableEq, Repr

/-- Go: `func newCSVParser(pattern csvPattern) *csvParser`. -/
def newCSVParser (pattern : csvPattern) : csvParser :=
  { pattern := pattern
    parser := { Comma := ' ', FieldsPerRecord := -1 }
    data := [] }

/-- Go: `func (cp csvParser) info() string`: the pairs of the pattern rendered
as `key:index`, joined by `, ` and enclosed in brackets. -/
def csvParser.info (cp : csvParser) : String :=
  "[" ++ ", ".intercalate (cp.pattern.map (fun v => v.Key ++ ":" ++ toString v.Index)) ++ "]"

/-- Go: the loop `for _, f := range cp.pattern { cp.data[f.Key] = lines[f.Index] }`.
An index outside `lines` panics. -/
def csvParser.fill (lines : List String) : csvPattern → groupMap → Except Panic groupMap
  | [], data => .ok data
  | f :: fs, data =>
    if 0 ≤ f.Index then
      match lines.get? f.Index.toNat with
      | some tok => csvParser.fill lines fs (groupMap.set data f.Key tok)
      | none => .error (.indexOutOfRange f.Index lines.length)
    else .error (.indexOutOfRange f.Index lines.length)

/-- Go: `func (cp *csvParser) parse(line string) (groupMap, bool)`. The result
is the returned pair (a `nil` map is `none`) together with the parser after the
call. -/
def csvParser.parse (cp : csvParser) (line : String) :
    Except Panic ((Option groupMap × Bool) × csvParser) :=
  match cp.parser.ParseString line with
  | .error _ => .ok ((none, false), cp)
  | .ok lines =>
    if cp.pattern.max ≥ (lines.length : Int) then .ok ((none, false), cp)
    else
      match csvParser.fill lines cp.pattern cp.data with
      | .error e => .error e
      | .ok data => .ok ((some data, true), { cp with data := data })

/-- Go: `var reqParser = newCSVParser(csvPattern{{keyMethod, 0}, {keyURL, 1}, {keyVersion, 2}})`,
the value of the package-level variable at start-up. -/
def reqParser : csvParser :=
  newCSVParser [⟨keyMethod, 0⟩, ⟨keyURL, 1⟩, ⟨keyVersion, 2⟩]

/-! ## Errors -/

/-- The errors built by `newParser` and `validateResult`, one constructor per
message format. -/
inductive Error where
  /-- Message `empty line`. -/
  | emptyLine
  /-- Message `pattern %v is not sorted`. -/
  | notSorted (pattern : csvPattern)
  /-- Message `pattern %v is not valid`. -/
  | notValid (pattern : csvPattern)
  /-- Message `can't find appropriate csv parser`. -/
  | noParser
  /-- Message `mandatory key 'code' is missing`. -/
  | codeMissing
  /-- Message `unknown key '%s'`. -/
  | unknownKey (k : String)
  /-- Message `'%s' field bad syntax: '%s'`, and for the request method
  `'%s' field bad syntax : '%s'`. -/
  | badField (k v : String)
  /-- Message `'%s' bad syntax : '%s'`. -/
  | badValue (k v : String)
  /-- Message `unparsable '%s' field : '%s'`. -/
  | unparsable (k v : String)
  deriving DecidableEq, Repr

/-! ## validateResult and newParser -/

/-- Go: the body of `case keyRequest:` in `validateResult`. The package-level
`reqParser`, whose scratch map currently is `rq`, parses the value; the result
is the error of the case and the scratch map of `reqParser` after the call. -/
def validateResult.request (rq : groupMap) (k v : String) :
    Except Panic (Option Error × groupMap) :=
  match csvParser.parse { reqParser with data := rq } v with
  | .error e => .error e
  | .ok ((gm, ok), cp) =>
    if !ok then .ok (some (.unparsable k v), cp.data)
    else if !reHTTPMethod.MatchString (groupMap.get (gm.getD []) keyMethod) then
      .ok (some (.badField keyMethod (groupMap.get (gm.getD []) keyMethod)), cp.data)
    else if !reHTTPVersion.MatchString (groupMap.get (gm.getD []) keyVersion) then
      .ok (some (.badValue keyVersion (groupMap.get (gm.getD []) keyVersion)), cp.data)
    else .ok (none, cp.data)

/-- Go: the loop `for k, v := range gm { switch k { ... } }` of `validateResult`
followed by `return nil`; the entries are visited in list order. The cases of
the `switch` are tried in source order and `default`, written first in the
source, is taken when no case applies. -/
def validateResult.range (rq : groupMap) : groupMap → Except Panic (Option Error × groupMap)
  | [] => .ok (none, rq)
  | (k, v) :: rest =>
    if k = keyUserDefined then validateResult.range rq rest
    else if k = keyVhost then
      if !reVhost.MatchString v then .ok (some (.badField k v), rq)
      else validateResult.range rq rest
    else if k = keyCode then
      if !reCode.MatchString v then .ok (some (.badField k v), rq)
      else validateResult.range rq rest
    else if k = keyAddress then
      if !reAddress.MatchString v then .ok (some (.badField k v), rq)
      else validateResult.range rq rest
    else if k = keyBytesSent then
      if !reBytesSent.MatchString v then .ok (some (.badField k v), rq)
      else validateResult.range rq rest
    else if k = keyRespLength then
      if !reResponseLength.MatchString v then .ok (some (.badField k v), rq)
      else validateResult.range rq rest
    else if k = keyRespTime ∨ k = keyRespTimeUpstream then
      if !reResponseTime.MatchString v then .ok (some (.badValue k v), rq)
      else validateResult.range rq rest
    else if k = keyRequest then
      match validateResult.request rq k v with
      | .error e => .error e
      | .ok (some err, rq1) => .ok (some err, rq1)
      | .ok (none, rq1) => validateResult.range rq1 rest
    else .ok (some (.unknownKey k), rq)

/-- Go: `func validateResult(gm map[string]string) error`. `rq` is the scratch
map of the package-level `reqParser` before the call; the result is the
returned error and that scratch map after the call. -/
def validateResult (rq : groupMap) (gm : groupMap) : Except Panic (Option Error × groupMap) :=
  if !(groupMap.lookup gm keyCode).2 then .ok (some .codeMissing, rq)
  else validateResult.range rq gm

/-- Go: the order in which a `range` loop visits the entries of a map is not
specified. A visiting order gives, for every map, its entries in the order in
which the loop visits them: some permutation of the entries. -/
structure VisitOrder where
  visit : groupMap → groupMap
  perm : ∀ gm, (visit gm).Perm gm

/-- The visiting order that follows the order in which the keys were
inserted. -/
def VisitOrder.insertion : VisitOrder :=
  { visit := fun gm => gm, perm := fun gm => List.Perm.refl gm }

/-- The visiting order that runs against the order in which the keys were
inserted. -/
def VisitOrder.reversed : VisitOrder :=
  { visit := fun gm => gm.reverse, perm := fun gm => List.reverse_perm gm }

/-- Go: the loop `for _, pattern := range patterns { ... }` of `newParser`
followed by the final `return nil, errors.New(...)`. The loop of
`validateResult` visits the map that `parse` returned in the order `ord`. -/
def newParser.range (ord : VisitOrder) (rq : groupMap) (line : String) :
    List csvPattern → Except Panic ((Option csvParser × Option Error) × groupMap)
  | [] => .ok ((none, some .noParser), rq)
  | pattern :: rest =>
    if !pattern.isSorted then .ok ((none, some (.notSorted pattern)), rq)
    else if !pattern.isValid then .ok ((none, some (.notValid pattern)), rq)
    else
      match csvParser.parse (newCSVParser pattern) line with
      | .error e => .error e
      | .ok ((gm, ok), parser) =>
        if !ok then newParser.range ord rq line rest
        else
          match validateResult rq (ord.visit (gm.getD [])) with
          | .error e => .error e
          | .ok (some err, rq1) => .ok ((none, some err), rq1)
          | .ok (none, rq1) => .ok ((some parser, none), rq1)

/-- Go: `func newParser(line string, patterns ...csvPattern) (parser, error)`.
`ord` is the order in which the `range` loop of `validateResult` visits the map
it is given, which Go leaves unspecified; `rq` is the scratch map of the
package-level `reqParser` before the call; the result is the returned pair and
that scratch map after the call. -/
def newParser (ord : VisitOrder) (rq : groupMap) (line : String)
    (patterns : List csvPattern) :
    Except Panic ((Option csvParser × Option Error) × groupMap) :=
  if line = "" then .ok ((none, some .emptyLine), rq)
  else newParser.range ord rq line patterns

/-! ## Specification-side notions used to state the properties -/

/-- The mapping extracted from the tokens `lines` with the pattern `p`: every
key of the pattern, in pattern order, with the token at its column index. -/
def extract (lines : List String) (p : csvPattern) : groupMap :=
  p.map (fun f => (f.Key, lines.getD f.Index.toNat ""))

/-- The composite rule of the `request` field as the code applies it: the value
tokenizes, the tokens at positions 0 and 2 exist, the first contains a match of
`reHTTPMethod` and the third a match of `reHTTPVersion`. -/
def requestRule (v : String) : Bool :=
  match reqParser.parser.ParseString v with
  | .ok (m :: _ :: ver :: _) => reHTTPMethod.MatchString m && reHTTPVersion.MatchString ver
  | _ => false

/-- The tokens of a line under the tokenizer configuration that `newCSVParser`
gives to every parser (separator `' '`, variable number of fields). -/
def tokens (line : String) : Except csvparser.ParseError (List String) :=
  (newCSVParser []).parser.ParseString line

/-- The scratch map of `reqParser` after it has parsed a value whose first three
tokens are `m`, `u`, `ver`, starting from the scratch map `rq`. -/
def reqData (rq : groupMap) (m u ver : String) : groupMap :=
  groupMap.set (groupMap.set (groupMap.set rq keyMethod m) keyURL u) keyVersion ver

/-- Go `strings.TrimSpace` on the characters of a string: leading and trailing
white space removed. -/
def trimSpace (l : List Char) : List Char :=
  ((l.dropWhile Char.isWhitespace).reverse.dropWhile Char.isWhitespace).reverse

/-- The rule of the `code` key as the specification words it: the trimmed value
consists of exactly three decimal digits, the first between 1 and 9. -/
def codeRuleAsStated (v : String) : Bool :=
  match trimSpace v.toList with
  | [a, b, c] => ('1' ≤ a && a ≤ '9') && ('0' ≤ b && b ≤ '9') && ('0' ≤ c && c ≤ '9')
  | _ => false

/-- The keys of the sub-fields of the composite `request` field, the keys of
the pattern of `reqParser`. -/
def subFieldKeys : List String := [keyMethod, keyURL, keyVersion]

/-- A parser for the pattern `[(code,1)]` whose scratch mapping holds the values
of an earlier line, `code: 200`. -/
def usedParser : csvParser :=
  { pattern := [⟨keyCode, 1⟩], parser := (newCSVParser []).parser, data := [(keyCode, "200")] }

/-- The items of a list written one after the other with `, ` between
neighbours, and nothing for the empty list. -/
def joinItems : List String → String
  | [] => ""
  | [a] => a
  | a :: b :: rest => a ++ ", " ++ joinItems (b :: rest)

/-- The number that a string of decimal digits denotes, read from the most
significant digit. -/
def digitsValue (l : List Char) : Nat :=
  l.foldl (fun acc c => 10 * acc + (c.toNat - 48)) 0

/-- The syntax rule of a key applied to a value, following the table of the
field validator: each validated key with its regular expression, `user_defined`
unconstrained, `request` composite. A key outside the table has no rule. -/
def fieldRule (k v : String) : Bool :=
  if k = keyUserDefined then true
  else if k = keyVhost then reVhost.MatchString v
  else if k = keyCode then reCode.MatchString v
  else if k = keyAddress then reAddress.MatchString v
  else if k = keyBytesSent then reBytesSent.MatchString v
  else if k = keyRespLength then reResponseLength.MatchString v
  else if k = keyRespTime ∨ k = keyRespTimeUpstream then reResponseTime.MatchString v
  else if k = keyRequest then requestRule v
  else false

/-! ## Lemmas: regular expressions -/

namespace Regex

theorem matchAt_never (t : List Char) : matchAt never t = false := by
  induction t with
  | nil => rfl
  | cons c cs ih => simp [matchAt, nullable, deriv, ih]

theorem matchAt_seq_never (x : Regex) (t : List Char) : matchAt (seq never x) t = false := by
  induction t with
  | nil => rfl
  | cons c cs ih => simp [matchAt, nullable, deriv, ih]

theorem matchAt_of_nullable (r : Regex) (h : nullable r = true) (t : List Char) :
    matchAt r t = true := by
  cases t <;> simp [matchAt, h]

theorem matchAt_alt (a b : Regex) (t : List Char) :
    matchAt (alt a b) t = (matchAt a t || matchAt b t) := by
  induction t generalizing a b with
  | nil => rfl
  | cons c cs ih =>
    simp only [matchAt, nullable, deriv, ih]
    cases nullable a <;> cases nullable b <;> simp

theorem matchAt_cls_seq (p : Char → Bool) (x : Regex) (t : List Char) :
    matchAt (seq (cls p) x) t =
      match t with
      | [] => false
      | c :: cs => p c && matchAt x cs := by
  cases t with
  | nil => rfl
  | cons c cs =>
    cases hp : p c
    · simp [matchAt, nullable, deriv, hp, matchAt_seq_never]
    · cases cs with
      | nil => simp [matchAt, nullable, deriv, hp]
      | cons d ds =>
        simp [matchAt, nullable, deriv, hp, matchAt_alt, matchAt_seq_never]

theorem matchAt_cls (p : Char → Bool) (t : List Char) :
    matchAt (cls p) t =
      match t with
      | [] => false
      | c :: _ => p c := by
  cases t with
  | nil => rfl
  | cons c cs =>
    cases hp : p c
    · simp [matchAt, nullable, deriv, hp, matchAt_never]
    · simp [matchAt, nullable, deriv, hp, matchAt_of_nullable eps rfl]

theorem search_iff (r : Regex) (t : List Char) :
    search r t = true ↔ ∃ pre post, t = pre ++ post ∧ matchAt r post = true := by
  induction t with
  | nil =>
    simp only [search]
    constructor
    · intro h
      exact ⟨[], [], rfl, h⟩
    · rintro ⟨pre, post, h1, h2⟩
      have := List.append_eq_nil.mp h1.symm
      rw [this.2] at h2
      exact h2
  | cons c cs ih =>
    simp only [search, Bool.or_eq_true, ih]
    constructor
    · rintro (h | ⟨pre, post, h1, h2⟩)
      · exact ⟨[], c :: cs, rfl, h⟩
      · exact ⟨c :: pre, post, by rw [h1]; rfl, h2⟩
    · rintro ⟨pre, post, h1, h2⟩
      cases pre with
      | nil =>
        left
        rw [List.nil_append] at h1
        rw [h1]
        exact h2
      | cons d ds =>
        right
        rw [List.cons_append, List.cons.injEq] at h1
        exact ⟨ds, post, h1.2, h2⟩

theorem search_plus_cls (p : Char → Bool) (t : List Char) :
    search (plus (cls p)) t = t.any p := by
  induction t with
  | nil => rfl
  | cons c cs ih =>
    rw [List.any_cons, ← ih]
    simp only [search, plus, matchAt_cls_seq, matchAt_of_nullable (star (cls p)) rfl]
    simp

end Regex

/-- The strings in which `reCode` finds a match: those that contain, at some
position, a character `1`-`9` followed by two decimal digits. -/
theorem reCode_MatchString_iff (v : String) :
    reCode.MatchString v = true ↔
      ∃ pre a b c post, v.toList = pre ++ a :: b :: c :: post ∧
        ('1' ≤ a ∧ a ≤ '9') ∧ ('0' ≤ b ∧ b ≤ '9') ∧ ('0' ≤ c ∧ c ≤ '9') := by
  simp only [Regex.MatchString, Regex.search_iff]
  constructor
  · rintro ⟨pre, post, h1, h2⟩
    simp only [reCode, Regex.digit, Regex.matchAt_cls_seq, Regex.matchAt_cls] at h2
    match post, h2 with
    | [], h2 => simp at h2
    | [_], h2 => simp at h2
    | [_, _], h2 => simp at h2
    | a :: b :: c :: rest, h2 =>
      simp only [Bool.and_eq_true, decide_eq_true_eq] at h2
      exact ⟨pre, a, b, c, rest, h1, h2.1, h2.2.1, h2.2.2⟩
  · rintro ⟨pre, a, b, c, post, h1, ha, hb, hc⟩
    refine ⟨pre, a :: b :: c :: post, h1, ?_⟩
    simp only [reCode, Regex.digit, Regex.matchAt_cls_seq, Regex.matchAt_cls]
    simp [ha, hb, hc]

/-- The strings in which `reHTTPMethod` finds a match: those that contain an
upper-case letter `A`-`Z`. -/
theorem reHTTPMethod_MatchString (v : String) :
    reHTTPMethod.MatchString v = v.toList.any (fun c => 'A' ≤ c && c ≤ 'Z') := by
  simp only [Regex.MatchString, reHTTPMethod, Regex.search_plus_cls]

/-! ## Lemmas: groupMap -/

theorem groupMap.lookup_snd_eq_true_iff (gm : groupMap) (key : String) :
    (groupMap.lookup gm key).2 = true ↔ key ∈ groupMap.keys gm := by
  induction gm with
  | nil => simp [groupMap.lookup, groupMap.keys]
  | cons kv rest ih =>
    obtain ⟨k, v⟩ := kv
    by_cases h : k = key
    · simp [groupMap.lookup, groupMap.keys, h]
    · have h2 : ¬ key = k := fun e => h e.symm
      simp only [groupMap.keys] at ih
      simp [groupMap.lookup, groupMap.keys, h, h2, ih]

theorem groupMap.set_of_not_mem (gm : groupMap) (key value : String)
    (h : key ∉ groupMap.keys gm) : groupMap.set gm key value = gm ++ [(key, value)] := by
  induction gm with
  | nil => rfl
  | cons kv rest ih =>
    obtain ⟨k, v⟩ := kv
    simp only [groupMap.keys, List.map_cons, List.mem_cons, not_or] at h
    have h1 : ¬ k = key := fun e => h.1 e.symm
    simp only [groupMap.set, h1, if_false, List.cons_append]
    rw [ih h.2]

theorem groupMap.lookup_set_same (gm : groupMap) (key value : String) :
    groupMap.lookup (groupMap.set gm key value) key = (value, true) := by
  induction gm with
  | nil => simp [groupMap.set, groupMap.lookup]
  | cons kv rest ih =>
    obtain ⟨k, v⟩ := kv
    by_cases h : k = key
    · simp [groupMap.set, groupMap.lookup, h]
    · simp [groupMap.set, groupMap.lookup, h, ih]

theorem groupMap.lookup_set_other (gm : groupMap) (key value k2 : String) (h : key ≠ k2) :
    groupMap.lookup (groupMap.set gm key value) k2 = groupMap.lookup gm k2 := by
  induction gm with
  | nil => simp [groupMap.set, groupMap.lookup, h]
  | cons kv rest ih =>
    obtain ⟨k, v⟩ := kv
    by_cases h1 : k = key
    · subst h1
      simp [groupMap.set, groupMap.lookup, h]
    · by_cases h2 : k = k2
      · subst h2
        simp [groupMap.set, groupMap.lookup, h1]
      · simp [groupMap.set, groupMap.lookup, h1, h2, ih]

theorem groupMap.keys_set (gm : groupMap) (key value k2 : String) :
    k2 ∈ groupMap.keys (groupMap.set gm key value) ↔ k2 = key ∨ k2 ∈ groupMap.keys gm := by
  induction gm with
  | nil => simp [groupMap.set, groupMap.keys]
  | cons kv rest ih =>
    obtain ⟨k, v⟩ := kv
    by_cases h1 : k = key
    · subst h1
      simp [groupMap.set, groupMap.keys]
    · simp only [groupMap.keys] at ih
      simp only [groupMap.set, h1, if_false, groupMap.keys, List.map_cons, List.mem_cons, ih]
      tauto

/-! ## Lemmas: csvPattern -/

theorem csvPattern.foldl_max_le (fs : List csvField) (m : Int) :
    m ≤ fs.foldl (fun m g => if m < g.Index then g.Index else m) m ∧
    ∀ g ∈ fs, g.Index ≤ fs.foldl (fun m g => if m < g.Index then g.Index else m) m := by
  induction fs generalizing m with
  | nil => simp
  | cons f fs ih =>
    simp only [List.foldl_cons, List.mem_cons, forall_eq_or_imp]
    have h := ih (if m < f.Index then f.Index else m)
    refine ⟨?_, ?_, h.2⟩
    · refine le_trans ?_ h.1
      split <;> omega
    · refine le_trans ?_ h.1
      split <;> omega

theorem csvPattern.le_max (p : csvPattern) (f : csvField) (h : f ∈ p) : f.Index ≤ p.max := by
  cases p with
  | nil => simp at h
  | cons g gs =>
    simp only [csvPattern.max]
    rcases List.mem_cons.mp h with h1 | h1
    · subst h1
      exact (csvPattern.foldl_max_le gs f.Index).1
    · exact (csvPattern.foldl_max_le gs g.Index).2 f h1

theorem csvPattern.isValid_iff (p : csvPattern) :
    p.isValid = true ↔ p ≠ [] ∧ (p.map csvField.Key).Nodup ∧ ∀ f ∈ p, 0 ≤ f.Index := by
  cases p <;> simp [csvPattern.isValid]

/-! ## Lemmas: csvParser.parse -/

theorem csvParser.fill_eq (lines : List String) (p : csvPattern) (data : groupMap)
    (hidx : ∀ f ∈ p, 0 ≤ f.Index ∧ f.Index < (lines.length : Int))
    (hnd : (p.map csvField.Key).Nodup)
    (hfresh : ∀ f ∈ p, f.Key ∉ groupMap.keys data) :
    csvParser.fill lines p data = .ok (data ++ extract lines p) := by
  induction p generalizing data with
  | nil => simp [csvParser.fill, extract]
  | cons f fs ih =>
    have hf := hidx f (List.mem_cons_self _ _)
    have hlt : f.Index.toNat < lines.length := by omega
    have hget : lines.get? f.Index.toNat = some (lines.getD f.Index.toNat "") := by
      rw [List.getD_eq_getElem?_getD, List.get?_eq_getElem?, List.getElem?_eq_getElem hlt]
      rfl
    simp only [List.map_cons, List.nodup_cons, List.mem_map, not_exists, not_and] at hnd
    simp only [csvParser.fill, hf.1, if_true, hget]
    rw [groupMap.set_of_not_mem _ _ _ (hfresh f (List.mem_cons_self _ _))]
    rw [ih]
    · simp [extract]
    · exact fun g hg => hidx g (List.mem_cons_of_mem _ hg)
    · exact hnd.2
    · intro g hg
      simp only [groupMap.keys, List.map_append, List.map_cons, List.map_nil, List.mem_append,
        List.mem_singleton, not_or]
      exact ⟨hfresh g (List.mem_cons_of_mem _ hg), fun e => hnd.1 g hg e⟩

theorem csvParser.parse_tokenize_error (cp : csvParser) (line : String)
    (e : csvparser.ParseError) (h : cp.parser.ParseString line = .error e) :
    csvParser.parse cp line = .ok ((none, false), cp) := by
  simp [csvParser.parse, h]

theorem csvParser.parse_short (cp : csvParser) (line : String) (lines : List String)
    (h : cp.parser.ParseString line = .ok lines) (hmax : (lines.length : Int) ≤ cp.pattern.max) :
    csvParser.parse cp line = .ok ((none, false), cp) := by
  simp [csvParser.parse, h, hmax]

theorem csvParser.parse_new (p : csvPattern) (line : String) (lines : List String)
    (hv : p.isValid = true)
    (h : (newCSVParser p).parser.ParseString line = .ok lines)
    (hmax : p.max < (lines.length : Int)) :
    csvParser.parse (newCSVParser p) line =
      .ok ((some (extract lines p), true), { (newCSVParser p) with data := extract lines p }) := by
  rw [csvPattern.isValid_iff] at hv
  have hfill := csvParser.fill_eq lines p []
    (fun f hf => ⟨hv.2.2 f hf, lt_of_le_of_lt (csvPattern.le_max p f hf) hmax⟩) hv.2.1
    (fun f _ => by simp [groupMap.keys])
  have hnot : ¬ ((lines.length : Int) ≤ p.max) := by omega
  simp only [csvParser.parse, h]
  simp only [newCSVParser, ge_iff_le, hnot, if_false] at hfill ⊢
  rw [hfill]
  simp

theorem csvParser.parse_isOk (p : csvPattern) (line : String) (hv : p.isValid = true) :
    csvParser.parse (newCSVParser p) line = .ok ((none, false), newCSVParser p) ∨
    ∃ lines, (newCSVParser p).parser.ParseString line = .ok lines ∧
      p.max < (lines.length : Int) ∧
      csvParser.parse (newCSVParser p) line =
        .ok ((some (extract lines p), true), { (newCSVParser p) with data := extract lines p }) := by
  cases h : (newCSVParser p).parser.ParseString line with
  | error e => exact Or.inl (csvParser.parse_tokenize_error _ _ e h)
  | ok lines =>
    by_cases hmax : p.max < (lines.length : Int)
    · exact Or.inr ⟨lines, rfl, hmax, csvParser.parse_new p line lines hv h hmax⟩
    · exact Or.inl (csvParser.parse_short _ _ lines h (by simpa using hmax))

theorem csvParser.parse_req_ok (rq : groupMap) (v m u ver : String) (rest : List String)
    (h : reqParser.parser.ParseString v = .ok (m :: u :: ver :: rest)) :
    csvParser.parse { reqParser with data := rq } v =
      .ok ((some (reqData rq m u ver), true), { reqParser with data := reqData rq m u ver }) := by
  simp only [csvParser.parse, h]
  simp [reqParser, newCSVParser, csvPattern.max, csvParser.fill, reqData]
  omega

theorem csvParser.parse_req_fail (rq : groupMap) (v : String)
    (h : ∀ m u ver rest, reqParser.parser.ParseString v ≠ .ok (m :: u :: ver :: rest)) :
    csvParser.parse { reqParser with data := rq } v =
      .ok ((none, false), { reqParser with data := rq }) := by
  cases hp : reqParser.parser.ParseString v with
  | error e => exact csvParser.parse_tokenize_error _ _ e hp
  | ok lines =>
    refine csvParser.parse_short _ _ lines hp ?_
    match lines, hp with
    | [], _ => simp [reqParser, newCSVParser, csvPattern.max]
    | [_], _ => simp [reqParser, newCSVParser, csvPattern.max]
    | [_, _], _ => simp [reqParser, newCSVParser, csvPattern.max]
    | m :: u :: ver :: rest, hp => exact absurd hp (h m u ver rest)

/-! ## Lemmas: validateResult -/

theorem reqData_method (rq : groupMap) (m u ver : String) :
    groupMap.get (reqData rq m u ver) keyMethod = m := by
  simp only [groupMap.get, reqData]
  rw [groupMap.lookup_set_other _ _ _ _ (by decide), groupMap.lookup_set_other _ _ _ _ (by decide),
    groupMap.lookup_set_same]

theorem reqData_url (rq : groupMap) (m u ver : String) :
    groupMap.get (reqData rq m u ver) keyURL = u := by
  simp only [groupMap.get, reqData]
  rw [groupMap.lookup_set_other _ _ _ _ (by decide), groupMap.lookup_set_same]

theorem reqData_version (rq : groupMap) (m u ver : String) :
    groupMap.get (reqData rq m u ver) keyVersion = ver := by
  simp only [groupMap.get, reqData]
  rw [groupMap.lookup_set_same]

theorem validateResult.request_of_tokens (rq : groupMap) (k v m u ver : String)
    (rest : List String) (h : reqParser.parser.ParseString v = .ok (m :: u :: ver :: rest)) :
    validateResult.request rq k v =
      if !reHTTPMethod.MatchString m then .ok (some (.badField keyMethod m), reqData rq m u ver)
      else if !reHTTPVersion.MatchString ver then
        .ok (some (.badValue keyVersion ver), reqData rq m u ver)
      else .ok (none, reqData rq m u ver) := by
  simp only [validateResult.request, csvParser.parse_req_ok rq v m u ver rest h, Option.getD_some,
    reqData_method, reqData_version]
  simp

theorem validateResult.request_of_short (rq : groupMap) (k v : String)
    (h : ∀ m u ver rest, reqParser.parser.ParseString v ≠ .ok (m :: u :: ver :: rest)) :
    validateResult.request rq k v = .ok (some (.unparsable k v), rq) := by
  simp [validateResult.request, csvParser.parse_req_fail rq v h]

theorem requestRule_of_tokens (v m u ver : String) (rest : List String)
    (h : reqParser.parser.ParseString v = .ok (m :: u :: ver :: rest)) :
    requestRule v = (reHTTPMethod.MatchString m && reHTTPVersion.MatchString ver) := by
  simp [requestRule, h]

theorem requestRule_of_short (v : String)
    (h : ∀ m u ver rest, reqParser.parser.ParseString v ≠ .ok (m :: u :: ver :: rest)) :
    requestRule v = false := by
  unfold requestRule
  split
  · next m u ver rest hp => exact absurd hp (h m _ ver _)
  · rfl

theorem tokens_cases (v : String) :
    (∃ m u ver rest, reqParser.parser.ParseString v = .ok (m :: u :: ver :: rest)) ∨
    (∀ m u ver rest, reqParser.parser.ParseString v ≠ .ok (m :: u :: ver :: rest)) := by
  by_cases h : ∃ m u ver rest, reqParser.parser.ParseString v = .ok (m :: u :: ver :: rest)
  · exact Or.inl h
  · right
    intro m u ver rest hp
    exact h ⟨m, u, ver, rest, hp⟩

/-- The request case either accepts, exactly when `requestRule` holds, or
returns an error; it never panics. -/
theorem validateResult.request_cases (rq : groupMap) (k v : String) :
    (requestRule v = true ∧ ∃ rq1, validateResult.request rq k v = .ok (none, rq1)) ∨
    (requestRule v = false ∧ ∃ e rq1, validateResult.request rq k v = .ok (some e, rq1)) := by
  rcases tokens_cases v with ⟨m, u, ver, rest, h⟩ | h
  · rw [validateResult.request_of_tokens rq k v m u ver rest h, requestRule_of_tokens v m u ver rest h]
    cases hm : reHTTPMethod.MatchString m <;> cases hv : reHTTPVersion.MatchString ver <;> simp
  · rw [validateResult.request_of_short rq k v h, requestRule_of_short v h]
    simp

/-- One round of the loop of `validateResult` on a key other than `request`:
the loop goes on when the value satisfies the rule of the key, and returns an
error otherwise. -/
theorem validateResult.range_step (rq : groupMap) (k v : String) (rest : groupMap)
    (hreq : k ≠ keyRequest) :
    (fieldRule k v = true ∧
      validateResult.range rq ((k, v) :: rest) = validateResult.range rq rest) ∨
    (fieldRule k v = false ∧
      ∃ e, validateResult.range rq ((k, v) :: rest) = .ok (some e, rq)) := by
  simp only [validateResult.range, fieldRule]
  by_cases h1 : k = keyUserDefined
  · simp only [if_pos h1]; simp
  simp only [if_neg h1]
  by_cases h2 : k = keyVhost
  · simp only [if_pos h2]
    cases reVhost.MatchString v <;> simp
  simp only [if_neg h2]
  by_cases h3 : k = keyCode
  · simp only [if_pos h3]
    cases reCode.MatchString v <;> simp
  simp only [if_neg h3]
  by_cases h4 : k = keyAddress
  · simp only [if_pos h4]
    cases reAddress.MatchString v <;> simp
  simp only [if_neg h4]
  by_cases h5 : k = keyBytesSent
  · simp only [if_pos h5]
    cases reBytesSent.MatchString v <;> simp
  simp only [if_neg h5]
  by_cases h6 : k = keyRespLength
  · simp only [if_pos h6]
    cases reResponseLength.MatchString v <;> simp
  simp only [if_neg h6]
  by_cases h7 : k = keyRespTime ∨ k = keyRespTimeUpstream
  · simp only [if_pos h7]
    cases reResponseTime.MatchString v <;> simp
  simp only [if_neg h7, if_neg hreq]
  simp

/-- The loop of `validateResult` either accepts, exactly when every entry
satisfies the rule of its key, or returns an error; it never panics. -/
theorem validateResult.range_cases (rq : groupMap) (gm : groupMap) :
    ((∀ kv ∈ gm, fieldRule kv.1 kv.2 = true) ∧ ∃ rq1, validateResult.range rq gm = .ok (none, rq1)) ∨
    ((∃ kv ∈ gm, fieldRule kv.1 kv.2 = false) ∧
      ∃ e rq1, validateResult.range rq gm = .ok (some e, rq1)) := by
  induction gm generalizing rq with
  | nil => left; simp [validateResult.range]
  | cons kv rest ih =>
    obtain ⟨k, v⟩ := kv
    simp only [List.mem_cons, forall_eq_or_imp, exists_eq_or_imp]
    by_cases hreq : k = keyRequest
    · subst hreq
      have hrule : fieldRule keyRequest v = requestRule v := by
        simp [fieldRule, keyRequest, keyUserDefined, keyVhost, keyCode, keyAddress,
          keyBytesSent, keyRespLength, keyRespTime, keyRespTimeUpstream]
      have hstep : validateResult.range rq ((keyRequest, v) :: rest) =
          match validateResult.request rq keyRequest v with
          | .error e => .error e
          | .ok (some err, rq1) => .ok (some err, rq1)
          | .ok (none, rq1) => validateResult.range rq1 rest := by
        simp [validateResult.range, keyRequest, keyUserDefined, keyVhost, keyCode, keyAddress,
          keyBytesSent, keyRespLength, keyRespTime, keyRespTimeUpstream]
      rw [hstep, hrule]
      rcases validateResult.request_cases rq keyRequest v with ⟨h1, rq1, h2⟩ | ⟨h1, e, rq1, h2⟩
      · rw [h2, h1]
        rcases ih rq1 with ⟨h3, h4⟩ | ⟨h3, h4⟩
        · exact Or.inl ⟨⟨rfl, h3⟩, h4⟩
        · exact Or.inr ⟨Or.inr h3, h4⟩
      · rw [h2, h1]
        exact Or.inr ⟨Or.inl rfl, e, rq1, rfl⟩
    · rcases validateResult.range_step rq k v rest hreq with ⟨hr, hs⟩ | ⟨hr, e, hs⟩
      · rw [hs, hr]
        rcases ih rq with ⟨h3, h4⟩ | ⟨h3, h4⟩
        · exact Or.inl ⟨⟨rfl, h3⟩, h4⟩
        · exact Or.inr ⟨Or.inr h3, h4⟩
      · rw [hs, hr]
        exact Or.inr ⟨Or.inl rfl, e, rq, rfl⟩

/-- `validateResult` accepts exactly the mappings that have a `code` key and
whose entries all satisfy the rule of their key. -/
theorem validateResult_accepts_iff (rq gm : groupMap) :
    (∃ rq1, validateResult rq gm = .ok (none, rq1)) ↔
      (keyCode ∈ groupMap.keys gm ∧ ∀ kv ∈ gm, fieldRule kv.1 kv.2 = true) := by
  unfold validateResult
  by_cases hc : (groupMap.lookup gm keyCode).2 = true
  · have hk := (groupMap.lookup_snd_eq_true_iff gm keyCode).mp hc
    simp only [hc, Bool.not_true, Bool.false_eq_true, if_false, hk, true_and]
    rcases validateResult.range_cases rq gm with ⟨h1, h2⟩ | ⟨⟨kv, hkv, hf⟩, e, rq1, h2⟩
    · exact ⟨fun _ => h1, fun _ => h2⟩
    · constructor
      · rintro ⟨rq2, h3⟩
        rw [h2] at h3
        simp at h3
      · intro h
        rw [h kv hkv] at hf
        simp at hf
  · have hk : keyCode ∉ groupMap.keys gm := fun h =>
      hc ((groupMap.lookup_snd_eq_true_iff gm keyCode).mpr h)
    simp [hc, hk]

/-- `validateResult` always returns (it never panics), and when it does not
accept it returns an error. -/
theorem validateResult_rejects_iff (rq gm : groupMap) :
    (∃ e rq1, validateResult rq gm = .ok (some e, rq1)) ↔
      ¬ (keyCode ∈ groupMap.keys gm ∧ ∀ kv ∈ gm, fieldRule kv.1 kv.2 = true) := by
  rw [← validateResult_accepts_iff rq gm]
  unfold validateResult
  by_cases hc : (groupMap.lookup gm keyCode).2 = true
  · simp only [hc, Bool.not_true, Bool.false_eq_true, if_false]
    rcases validateResult.range_cases rq gm with ⟨_, rq1, h2⟩ | ⟨_, e, rq1, h2⟩
    · rw [h2]; simp
    · rw [h2]; simp
  · simp [hc]

/-! ## Lemmas: visiting order -/

theorem VisitOrder.mem_visit (ord : VisitOrder) (gm : groupMap) (kv : String × String) :
    kv ∈ ord.visit gm ↔ kv ∈ gm :=
  (ord.perm gm).mem_iff

theorem VisitOrder.keys_visit (ord : VisitOrder) (gm : groupMap) (k : String) :
    k ∈ groupMap.keys (ord.visit gm) ↔ k ∈ groupMap.keys gm :=
  ((ord.perm gm).map Prod.fst).mem_iff

theorem VisitOrder.visit_singleton (ord : VisitOrder) (kv : String × String) :
    ord.visit [kv] = [kv] :=
  List.perm_singleton.mp (ord.perm [kv])

/-- In every visiting order `validateResult` returns, and it accepts exactly
when `code` is present and every entry satisfies the rule of its key. -/
theorem validateResult_visit_cases (ord : VisitOrder) (rq gm : groupMap) :
    ((keyCode ∈ groupMap.keys gm ∧ ∀ kv ∈ gm, fieldRule kv.1 kv.2 = true) ∧
      ∃ rq1, validateResult rq (ord.visit gm) = .ok (none, rq1)) ∨
    (¬ (keyCode ∈ groupMap.keys gm ∧ ∀ kv ∈ gm, fieldRule kv.1 kv.2 = true) ∧
      ∃ e rq1, validateResult rq (ord.visit gm) = .ok (some e, rq1)) := by
  have hiff : (keyCode ∈ groupMap.keys (ord.visit gm) ∧
        ∀ kv ∈ ord.visit gm, fieldRule kv.1 kv.2 = true) ↔
      (keyCode ∈ groupMap.keys gm ∧ ∀ kv ∈ gm, fieldRule kv.1 kv.2 = true) := by
    rw [VisitOrder.keys_visit]
    constructor
    · rintro ⟨h1, h2⟩
      exact ⟨h1, fun kv hkv => h2 kv ((ord.mem_visit gm kv).mpr hkv)⟩
    · rintro ⟨h1, h2⟩
      exact ⟨h1, fun kv hkv => h2 kv ((ord.mem_visit gm kv).mp hkv)⟩
  by_cases hacc : keyCode ∈ groupMap.keys gm ∧ ∀ kv ∈ gm, fieldRule kv.1 kv.2 = true
  · exact Or.inl ⟨hacc, (validateResult_accepts_iff rq (ord.visit gm)).mpr (hiff.mpr hacc)⟩
  · exact Or.inr ⟨hacc,
      (validateResult_rejects_iff rq (ord.visit gm)).mpr (fun h => hacc (hiff.mp h))⟩

/-! ## Lemmas: newParser -/

theorem csvParser.fill_spec (lines : List String) (p : csvPattern) (data : groupMap)
    (hidx : ∀ f ∈ p, 0 ≤ f.Index ∧ f.Index < (lines.length : Int)) :
    ∃ d, csvParser.fill lines p data = .ok d ∧
      (∀ k, k ∈ groupMap.keys d ↔ k ∈ groupMap.keys data ∨ k ∈ p.map csvField.Key) ∧
      (∀ k, k ∉ p.map csvField.Key → groupMap.lookup d k = groupMap.lookup data k) ∧
      ((p.map csvField.Key).Nodup →
        ∀ f ∈ p, groupMap.lookup d f.Key = (lines.getD f.Index.toNat "", true)) := by
  induction p generalizing data with
  | nil => exact ⟨data, rfl, by simp, by simp, by simp⟩
  | cons f fs ih =>
    have hf := hidx f (List.mem_cons_self _ _)
    have hlt : f.Index.toNat < lines.length := by omega
    have hget : lines.get? f.Index.toNat = some (lines.getD f.Index.toNat "") := by
      rw [List.getD_eq_getElem?_getD, List.get?_eq_getElem?, List.getElem?_eq_getElem hlt]
      rfl
    obtain ⟨d, hd, hkeys, hother, hmine⟩ :=
      ih (groupMap.set data f.Key (lines.getD f.Index.toNat ""))
        (fun g hg => hidx g (List.mem_cons_of_mem _ hg))
    refine ⟨d, ?_, ?_, ?_, ?_⟩
    · simp only [csvParser.fill, hf.1, if_true, hget, hd]
    · intro k
      rw [hkeys k, groupMap.keys_set]
      simp only [List.map_cons, List.mem_cons]
      tauto
    · intro k hk
      simp only [List.map_cons, List.mem_cons, not_or] at hk
      rw [hother k hk.2, groupMap.lookup_set_other _ _ _ _ (fun e => hk.1 e.symm)]
    · intro hnd g hg
      simp only [List.map_cons, List.nodup_cons] at hnd
      rcases List.mem_cons.mp hg with h1 | h1
      · subst h1
        rw [hother g.Key hnd.1, groupMap.lookup_set_same]
      · exact hmine hnd.2 g h1

/-- One round of the loop of `newParser` on a sorted, valid pattern for which
the line tokenizes with enough columns: the outcome is decided by
`validateResult` on the extracted mapping. -/
theorem newParser.range_head (ord : VisitOrder) (rq : groupMap) (line : String)
    (P : csvPattern) (rest : List csvPattern) (lines : List String)
    (hs : P.isSorted = true) (hv : P.isValid = true)
    (htok : tokens line = .ok lines) (hmax : P.max < (lines.length : Int)) :
    newParser.range ord rq line (P :: rest) =
      match validateResult rq (ord.visit (extract lines P)) with
      | .error e => .error e
      | .ok (some err, rq1) => .ok ((none, some err), rq1)
      | .ok (none, rq1) =>
        .ok ((some { (newCSVParser P) with data := extract lines P }, none), rq1) := by
  simp only [newParser.range, hs, hv, Bool.not_true, Bool.false_eq_true, if_false,
    csvParser.parse_new P line lines hv htok hmax, Option.getD_some]

/-- One round of the loop of `newParser` on a sorted, valid pattern that the
line does not fit (tokenization error or too few columns): the pattern is
skipped. -/
theorem newParser.range_skip (ord : VisitOrder) (rq : groupMap) (line : String)
    (P : csvPattern) (rest : List csvPattern) (hs : P.isSorted = true)
    (hv : P.isValid = true)
    (hfit : ∀ lines, tokens line = .ok lines → (lines.length : Int) ≤ P.max) :
    newParser.range ord rq line (P :: rest) = newParser.range ord rq line rest := by
  have hparse : csvParser.parse (newCSVParser P) line = .ok ((none, false), newCSVParser P) := by
    rcases csvParser.parse_isOk P line hv with h | ⟨lines, h1, h2, _⟩
    · exact h
    · have := hfit lines h1
      omega
  simp only [newParser.range, hs, hv, Bool.not_true, Bool.false_eq_true, if_false, hparse,
    Bool.not_false, if_true]

/-- A parse on any parser whose pattern has no negative index, on a line that
tokenizes with enough columns, returns the scratch map filled from the tokens
and never panics. -/
theorem csvParser.parse_spec (cp : csvParser) (line : String) (lines : List String)
    (htok : cp.parser.ParseString line = .ok lines)
    (hmax : cp.pattern.max < (lines.length : Int))
    (hnn : ∀ f ∈ cp.pattern, 0 ≤ f.Index) :
    ∃ d, csvParser.parse cp line = .ok ((some d, true), { cp with data := d }) ∧
      (∀ k, k ∈ groupMap.keys d ↔ k ∈ groupMap.keys cp.data ∨ k ∈ cp.pattern.map csvField.Key) ∧
      (∀ k, k ∉ cp.pattern.map csvField.Key → groupMap.lookup d k = groupMap.lookup cp.data k) ∧
      ((cp.pattern.map csvField.Key).Nodup →
        ∀ f ∈ cp.pattern, groupMap.lookup d f.Key = (lines.getD f.Index.toNat "", true)) := by
  obtain ⟨d, hd, h1, h2, h3⟩ := csvParser.fill_spec lines cp.pattern cp.data
    (fun f hf => ⟨hnn f hf, lt_of_le_of_lt (csvPattern.le_max cp.pattern f hf) hmax⟩)
  refine ⟨d, ?_, h1, h2, h3⟩
  have hnot : ¬ ((lines.length : Int) ≤ cp.pattern.max) := by omega
  simp only [csvParser.parse, htok, ge_iff_le, hnot, if_false, hd]

theorem extract_keys (lines : List String) (p : csvPattern) :
    groupMap.keys (extract lines p) = p.map csvField.Key := by
  simp [groupMap.keys, extract]

theorem groupMap.exists_of_mem_keys (gm : groupMap) (k : String) (h : k ∈ groupMap.keys gm) :
    ∃ v, (k, v) ∈ gm := by
  obtain ⟨kv, hkv, hk⟩ := List.mem_map.mp h
  exact ⟨kv.2, by rw [← hk]; exact hkv⟩

theorem fieldRule_request (v : String) : fieldRule keyRequest v = requestRule v := by
  simp [fieldRule, keyRequest, keyUserDefined, keyVhost, keyCode, keyAddress,
    keyBytesSent, keyRespLength, keyRespTime, keyRespTimeUpstream]

theorem fieldRule_of_not_fieldKey (k v : String) (h : k ∉ fieldKeys) : fieldRule k v = false := by
  simp only [fieldKeys, List.mem_cons, List.mem_singleton, not_or, List.not_mem_nil,
    or_false] at h
  obtain ⟨h1, h2, h3, h4, h5, h6, h7, h8, -, -, -, h12⟩ := h
  simp [fieldRule, h1, h2, h3, h4, h5, h6, h7, h8, h12]

/-- The loop of `newParser` skips every leading pattern that is sorted and valid
but that the line does not fit. -/
theorem newParser.range_skip_all (ord : VisitOrder) (rq : groupMap) (line : String)
    (pre rest : List csvPattern)
    (hpre : ∀ P ∈ pre, P.isSorted = true ∧ P.isValid = true ∧
      ∀ lines, tokens line = .ok lines → (lines.length : Int) ≤ P.max) :
    newParser.range ord rq line (pre ++ rest) = newParser.range ord rq line rest := by
  induction pre with
  | nil => rfl
  | cons P ps ih =>
    have hP := hpre P (List.mem_cons_self _ _)
    rw [List.cons_append, newParser.range_skip ord rq line P (ps ++ rest) hP.1 hP.2.1 hP.2.2]
    exact ih (fun Q hQ => hpre Q (List.mem_cons_of_mem _ hQ))

/-- A line whose tokens are known and are too few for a pattern does not fit
it. -/
theorem tokens_too_few (line : String) (lines : List String) (P : csvPattern)
    (h : tokens line = .ok lines) (hle : (lines.length : Int) ≤ P.max) :
    ∀ l, tokens line = .ok l → (l.length : Int) ≤ P.max := by
  intro l hl
  rw [h] at hl
  cases hl
  exact hle

/-! ## Lemmas: the scratch map of reqParser -/

theorem reqData_lookup_other (rq : groupMap) (m u ver k : String)
    (hk : k ∉ subFieldKeys) :
    groupMap.lookup (reqData rq m u ver) k = groupMap.lookup rq k := by
  simp only [subFieldKeys, List.mem_cons, List.mem_singleton, List.not_mem_nil, or_false,
    not_or] at hk
  simp only [reqData]
  rw [groupMap.lookup_set_other _ _ _ _ (fun e => hk.2.2 e.symm),
    groupMap.lookup_set_other _ _ _ _ (fun e => hk.2.1 e.symm),
    groupMap.lookup_set_other _ _ _ _ (fun e => hk.1 e.symm)]

/-- The request case changes the scratch map of `reqParser` at most at the
three sub-field keys. -/
theorem validateResult.request_frame (rq rq1 : groupMap) (k v : String) (e : Option Error)
    (h : validateResult.request rq k v = .ok (e, rq1)) :
    ∀ k2, k2 ∉ subFieldKeys → groupMap.lookup rq1 k2 = groupMap.lookup rq k2 := by
  intro k2 hk2
  rcases tokens_cases v with ⟨m, u, ver, rest, ht⟩ | ht
  · rw [validateResult.request_of_tokens rq k v m u ver rest ht] at h
    have hrq : rq1 = reqData rq m u ver := by
      split_ifs at h <;> simp only [Except.ok.injEq, Prod.mk.injEq] at h <;> exact h.2.symm
    rw [hrq]
    exact reqData_lookup_other rq m u ver k2 hk2
  · rw [validateResult.request_of_short rq k v ht] at h
    simp only [Except.ok.injEq, Prod.mk.injEq] at h
    rw [← h.2]

/-- The loop of `validateResult` leaves the scratch map of `reqParser` as it was
when the mapping has no `request` key, and changes it at most at the three
sub-field keys otherwise. -/
theorem validateResult.range_frame (rq rq1 gm : groupMap) (e : Option Error)
    (h : validateResult.range rq gm = .ok (e, rq1)) :
    (keyRequest ∉ groupMap.keys gm → rq1 = rq) ∧
    ∀ k2, k2 ∉ subFieldKeys → groupMap.lookup rq1 k2 = groupMap.lookup rq k2 := by
  induction gm generalizing rq with
  | nil =>
    simp only [validateResult.range, Except.ok.injEq, Prod.mk.injEq] at h
    rw [← h.2]
    exact ⟨fun _ => rfl, fun _ _ => rfl⟩
  | cons kv rest ih =>
    obtain ⟨k, v⟩ := kv
    by_cases hreq : k = keyRequest
    · subst hreq
      have hstep : validateResult.range rq ((keyRequest, v) :: rest) =
          match validateResult.request rq keyRequest v with
          | .error e => .error e
          | .ok (some err, rq1) => .ok (some err, rq1)
          | .ok (none, rq1) => validateResult.range rq1 rest := by
        simp [validateResult.range, keyRequest, keyUserDefined, keyVhost, keyCode, keyAddress,
          keyBytesSent, keyRespLength, keyRespTime, keyRespTimeUpstream]
      rw [hstep] at h
      refine ⟨fun hno => absurd (by simp [groupMap.keys]) hno, ?_⟩
      rcases validateResult.request_cases rq keyRequest v with ⟨_, rqa, h2⟩ | ⟨_, err, rqa, h2⟩
      · rw [h2] at h
        intro k2 hk2
        rw [(ih rqa h).2 k2 hk2]
        exact validateResult.request_frame rq rqa keyRequest v none h2 k2 hk2
      · rw [h2] at h
        simp only [Except.ok.injEq, Prod.mk.injEq] at h
        rw [← h.2]
        exact validateResult.request_frame rq rqa keyRequest v (some err) h2
    · rcases validateResult.range_step rq k v rest hreq with ⟨_, hs⟩ | ⟨_, err, hs⟩
      · rw [hs] at h
        refine ⟨fun hno => (ih rq h).1 ?_, (ih rq h).2⟩
        intro hmem
        exact hno (by simp only [groupMap.keys, List.map_cons, List.mem_cons]; exact Or.inr hmem)
      · rw [hs] at h
        simp only [Except.ok.injEq, Prod.mk.injEq] at h
        rw [← h.2]
        exact ⟨fun _ => rfl, fun _ _ => rfl⟩

/-- Validating a mapping that has no `request` key leaves the scratch map of
`reqParser` as it was. -/
theorem validateResult_scratch_unchanged (rq rq1 gm : groupMap) (e : Option Error)
    (h : validateResult rq gm = .ok (e, rq1)) (hno : keyRequest ∉ groupMap.keys gm) :
    rq1 = rq := by
  unfold validateResult at h
  split_ifs at h
  · simp only [Except.ok.injEq, Prod.mk.injEq] at h
    exact h.2.symm
  · exact (validateResult.range_frame rq rq1 gm e h).1 hno

/-! ## Lemmas: info -/

theorem digitChar_spec (k : Nat) (hk : k < 10) :
    ((Nat.digitChar k).toNat - 48 = k) ∧ '0' ≤ Nat.digitChar k ∧ Nat.digitChar k ≤ '9' := by
  interval_cases k <;> decide

theorem toDigitsCore_spec (f : Nat) : ∀ (n : Nat) (ds : List Char), n < f →
    (Nat.toDigitsCore 10 f n ds).foldl (fun acc c => 10 * acc + (c.toNat - 48)) 0 =
      ds.foldl (fun acc c => 10 * acc + (c.toNat - 48)) n ∧
    ∀ c ∈ Nat.toDigitsCore 10 f n ds, ('0' ≤ c ∧ c ≤ '9') ∨ c ∈ ds := by
  induction f with
  | zero => intro n ds h; omega
  | succ f ih =>
    intro n ds h
    have hd := digitChar_spec (n % 10) (Nat.mod_lt _ (by decide))
    simp only [Nat.toDigitsCore]
    by_cases h0 : n / 10 = 0
    · simp only [h0, if_true]
      refine ⟨?_, ?_⟩
      · rw [List.foldl_cons, hd.1]
        have : 10 * 0 + n % 10 = n := by omega
        rw [this]
      · intro c hc
        rcases List.mem_cons.mp hc with h4 | h4
        · left; rw [h4]; exact hd.2
        · exact Or.inr h4
    · simp only [h0, if_false]
      have hlt : n / 10 < f := by omega
      obtain ⟨h1, h2⟩ := ih (n / 10) (Nat.digitChar (n % 10) :: ds) hlt
      refine ⟨?_, ?_⟩
      · rw [h1, List.foldl_cons, hd.1]
        have : 10 * (n / 10) + n % 10 = n := by omega
        rw [this]
      · intro c hc
        rcases h2 c hc with h3 | h3
        · exact Or.inl h3
        · rcases List.mem_cons.mp h3 with h4 | h4
          · left; rw [h4]; exact hd.2
          · exact Or.inr h4

/-- The rendering of a non-negative index consists of decimal digits that
denote the index. -/
theorem toString_nat_spec (n : Nat) :
    digitsValue (toString (n : Int)).toList = n ∧
    ∀ c ∈ (toString (n : Int)).toList, '0' ≤ c ∧ c ≤ '9' := by
  have h := toDigitsCore_spec (n + 1) n [] (by omega)
  have e : (toString (n : Int)).toList = Nat.toDigitsCore 10 (n + 1) n [] := rfl
  rw [e]
  refine ⟨?_, ?_⟩
  · simpa [digitsValue] using h.1
  · intro c hc
    rcases h.2 c hc with h1 | h1
    · exact h1
    · simp at h1

theorem intercalate_go_eq (acc : String) (l : List String) (hl : l ≠ []) :
    String.intercalate.go acc ", " l = acc ++ ", " ++ joinItems l := by
  induction l generalizing acc with
  | nil => exact absurd rfl hl
  | cons a rest ih =>
    cases rest with
    | nil => simp [String.intercalate.go, joinItems]
    | cons b rest =>
      rw [String.intercalate.go, ih (acc ++ ", " ++ a) (by simp)]
      simp [joinItems, String.append_assoc]

theorem intercalate_eq_joinItems (l : List String) :
    ", ".intercalate l = joinItems l := by
  cases l with
  | nil => rfl
  | cons a rest =>
    cases rest with
    | nil => simp [String.intercalate, String.intercalate.go, joinItems]
    | cons b rest =>
      rw [String.intercalate, intercalate_go_eq a (b :: rest) (by simp)]
      simp [joinItems]

/-! ## Lemmas: sub-field keys and bound parsers -/

theorem fieldRule_subField (k v : String) (hk : k ∈ subFieldKeys) : fieldRule k v = false := by
  simp only [subFieldKeys, List.mem_cons, List.mem_singleton, List.not_mem_nil, or_false] at hk
  rcases hk with rfl | rfl | rfl <;>
    simp [fieldRule, keyMethod, keyURL, keyVersion, keyRequest, keyUserDefined, keyVhost,
      keyCode, keyAddress, keyBytesSent, keyRespLength, keyRespTime, keyRespTimeUpstream]

theorem validateResult.range_at_subField (rq : groupMap) (k v : String) (rest : groupMap)
    (hk : k ∈ subFieldKeys) :
    validateResult.range rq ((k, v) :: rest) = .ok (some (.unknownKey k), rq) := by
  simp only [subFieldKeys, List.mem_cons, List.mem_singleton, List.not_mem_nil, or_false] at hk
  rcases hk with rfl | rfl | rfl <;>
    simp [validateResult.range, keyMethod, keyURL, keyVersion, keyRequest, keyUserDefined,
      keyVhost, keyCode, keyAddress, keyBytesSent, keyRespLength, keyRespTime,
      keyRespTimeUpstream]

/-- When every entry whose key is not a sub-field key satisfies the rule of its
key, the loop of `validateResult` stops at the first sub-field key with the
unknown-key error. -/
theorem validateResult.range_subField (rq gm : groupMap)
    (hsub : ∃ kv ∈ gm, kv.1 ∈ subFieldKeys)
    (hall : ∀ kv ∈ gm, kv.1 ∉ subFieldKeys → fieldRule kv.1 kv.2 = true) :
    ∃ k ∈ subFieldKeys, ∃ rq1, validateResult.range rq gm = .ok (some (.unknownKey k), rq1) := by
  induction gm generalizing rq with
  | nil => simp at hsub
  | cons kv rest ih =>
    obtain ⟨k, v⟩ := kv
    by_cases hk : k ∈ subFieldKeys
    · exact ⟨k, hk, rq, validateResult.range_at_subField rq k v rest hk⟩
    · have hrule := hall (k, v) (List.mem_cons_self _ _) hk
      have hsub2 : ∃ kv ∈ rest, kv.1 ∈ subFieldKeys := by
        obtain ⟨kv, hkv, hs⟩ := hsub
        rcases List.mem_cons.mp hkv with h | h
        · rw [h] at hs
          exact absurd hs hk
        · exact ⟨kv, h, hs⟩
      have hall2 : ∀ kv ∈ rest, kv.1 ∉ subFieldKeys → fieldRule kv.1 kv.2 = true :=
        fun kv hkv => hall kv (List.mem_cons_of_mem _ hkv)
      by_cases hreq : k = keyRequest
      · subst hreq
        have hstep : validateResult.range rq ((keyRequest, v) :: rest) =
            match validateResult.request rq keyRequest v with
            | .error e => .error e
            | .ok (some err, rq1) => .ok (some err, rq1)
            | .ok (none, rq1) => validateResult.range rq1 rest := by
          simp [validateResult.range, keyRequest, keyUserDefined, keyVhost, keyCode, keyAddress,
            keyBytesSent, keyRespLength, keyRespTime, keyRespTimeUpstream]
        rw [fieldRule_request] at hrule
        rcases validateResult.request_cases rq keyRequest v with ⟨_, rqa, h2⟩ | ⟨h1, _⟩
        · rw [hstep, h2]
          exact ih rqa hsub2 hall2
        · rw [hrule] at h1
          simp at h1
      · rcases validateResult.range_step rq k v rest hreq with ⟨_, hs⟩ | ⟨h1, _⟩
        · rw [hs]
          exact ih rq hsub2 hall2
        · rw [hrule] at h1
          simp at h1

/-- A parser returned by the loop of `newParser` is bound to one of the
candidates, which is sorted and valid and which the line fits, and the mapping
extracted with it was accepted by `validateResult` in the visiting order. -/
theorem newParser.range_bound (ord : VisitOrder) (rq rq1 : groupMap) (line : String)
    (patterns : List csvPattern) (parser : csvParser) (err : Option Error)
    (h : newParser.range ord rq line patterns = .ok ((some parser, err), rq1)) :
    ∃ lines, tokens line = .ok lines ∧ parser.pattern ∈ patterns ∧
      parser.pattern.isSorted = true ∧ parser.pattern.isValid = true ∧
      parser.pattern.max < (lines.length : Int) ∧
      parser.data = extract lines parser.pattern ∧
      validateResult rq (ord.visit (extract lines parser.pattern)) = .ok (none, rq1) ∧
      err = none := by
  induction patterns with
  | nil => simp [newParser.range] at h
  | cons P rest ih =>
    by_cases hs : P.isSorted = true
    · by_cases hv : P.isValid = true
      · rcases csvParser.parse_isOk P line hv with hp | ⟨lines, h1, h2, _⟩
        · have hstep : newParser.range ord rq line (P :: rest) =
              newParser.range ord rq line rest := by
            simp [newParser.range, hs, hv, hp]
          rw [hstep] at h
          obtain ⟨lines, h1, h2, h3⟩ := ih h
          exact ⟨lines, h1, List.mem_cons_of_mem _ h2, h3⟩
        · rw [newParser.range_head ord rq line P rest lines hs hv h1 h2] at h
          rcases validateResult_visit_cases ord rq (extract lines P) with
            ⟨_, rqa, ha⟩ | ⟨_, e, rqa, ha⟩
          · rw [ha] at h
            simp only [Except.ok.injEq, Prod.mk.injEq, Option.some.injEq] at h
            obtain ⟨⟨hpar, herr⟩, hrq⟩ := h
            subst hpar
            subst hrq
            exact ⟨lines, h1, List.mem_cons_self _ _, hs, hv, h2, rfl, ha, herr.symm⟩
          · rw [ha] at h
            simp at h
      · simp [newParser.range, hs, hv] at h
    · simp [newParser.range, hs] at h

/-! ## Lemmas: the error that validateResult returns -/

theorem newParser_head (ord : VisitOrder) (rq : groupMap) (line : String) (P : csvPattern)
    (rest : List csvPattern) (lines : List String) (hline : line ≠ "")
    (hs : P.isSorted = true) (hv : P.isValid = true)
    (htok : tokens line = .ok lines) (hmax : P.max < (lines.length : Int)) :
    newParser ord rq line (P :: rest) =
      match validateResult rq (ord.visit (extract lines P)) with
      | .error e => .error e
      | .ok (some err, rq1) => .ok ((none, some err), rq1)
      | .ok (none, rq1) =>
        .ok ((some { (newCSVParser P) with data := extract lines P }, none), rq1) := by
  simp only [newParser, hline, if_false]
  exact newParser.range_head ord rq line P rest lines hs hv htok hmax

/-- The error returned at an entry that fails its rule, for a key other than
`request`, does not depend on the entries that follow. -/
theorem validateResult.range_fail_indep (rq : groupMap) (k v : String)
    (rest rest2 : groupMap) (hreq : k ≠ keyRequest) (hf : fieldRule k v = false) :
    validateResult.range rq ((k, v) :: rest) = validateResult.range rq ((k, v) :: rest2) := by
  unfold fieldRule at hf
  simp only [validateResult.range]
  by_cases h1 : k = keyUserDefined
  · simp [h1] at hf
  simp only [if_neg h1] at hf ⊢
  by_cases h2 : k = keyVhost
  · simp only [if_pos h2] at hf ⊢
    simp [hf]
  simp only [if_neg h2] at hf ⊢
  by_cases h3 : k = keyCode
  · simp only [if_pos h3] at hf ⊢
    simp [hf]
  simp only [if_neg h3] at hf ⊢
  by_cases h4 : k = keyAddress
  · simp only [if_pos h4] at hf ⊢
    simp [hf]
  simp only [if_neg h4] at hf ⊢
  by_cases h5 : k = keyBytesSent
  · simp only [if_pos h5] at hf ⊢
    simp [hf]
  simp only [if_neg h5] at hf ⊢
  by_cases h6 : k = keyRespLength
  · simp only [if_pos h6] at hf ⊢
    simp [hf]
  simp only [if_neg h6] at hf ⊢
  by_cases h7 : k = keyRespTime ∨ k = keyRespTimeUpstream
  · simp only [if_pos h7] at hf ⊢
    simp [hf]
  simp only [if_neg h7, if_neg hreq]

theorem validateResult.range_request_step (rq : groupMap) (v : String) (rest : groupMap) :
    validateResult.range rq ((keyRequest, v) :: rest) =
      match validateResult.request rq keyRequest v with
      | .error e => .error e
      | .ok (some err, rq1) => .ok (some err, rq1)
      | .ok (none, rq1) => validateResult.range rq1 rest := by
  simp [validateResult.range, keyRequest, keyUserDefined, keyVhost, keyCode, keyAddress,
    keyBytesSent, keyRespLength, keyRespTime, keyRespTimeUpstream]

/-- An error returned by the loop of `validateResult` is the error that the loop
returns on one entry of the mapping, taken alone, that fails the rule of its
key. -/
theorem validateResult.range_error_of_entry (rq rq1 gm : groupMap) (e : Error)
    (h : validateResult.range rq gm = .ok (some e, rq1)) :
    ∃ kv ∈ gm, fieldRule kv.1 kv.2 = false ∧
      ∃ rqa rqb, validateResult.range rqa [kv] = .ok (some e, rqb) := by
  induction gm generalizing rq with
  | nil => simp [validateResult.range] at h
  | cons kv rest ih =>
    obtain ⟨k, v⟩ := kv
    by_cases hreq : k = keyRequest
    · subst hreq
      rw [validateResult.range_request_step] at h
      rcases validateResult.request_cases rq keyRequest v with ⟨_, rqa, h2⟩ | ⟨hr, err, rqa, h2⟩
      · rw [h2] at h
        obtain ⟨kv, hkv, hrest⟩ := ih rqa h
        exact ⟨kv, List.mem_cons_of_mem _ hkv, hrest⟩
      · rw [h2] at h
        simp only [Except.ok.injEq, Prod.mk.injEq, Option.some.injEq] at h
        refine ⟨(keyRequest, v), List.mem_cons_self _ _, ?_, rq, rqa, ?_⟩
        · rw [fieldRule_request]
          exact hr
        · rw [validateResult.range_request_step, h2, h.1]
    · rcases validateResult.range_step rq k v rest hreq with ⟨_, hs⟩ | ⟨hr, _⟩
      · rw [hs] at h
        obtain ⟨kv, hkv, hrest⟩ := ih rq h
        exact ⟨kv, List.mem_cons_of_mem _ hkv, hrest⟩
      · refine ⟨(k, v), List.mem_cons_self _ _, hr, rq, rq1, ?_⟩
        rw [validateResult.range_fail_indep rq k v [] rest hreq hr]
        exact h

/-- When the mapping has no `request` key and exactly one entry fails the rule of
its key, the loop of `validateResult` returns what it returns on that entry
alone, in every visiting order. -/
theorem validateResult.range_unique_failure (rq gm : groupMap) (k0 v0 : String)
    (hno : keyRequest ∉ groupMap.keys gm)
    (hmem : (k0, v0) ∈ gm) (hf : fieldRule k0 v0 = false)
    (hothers : ∀ kv ∈ gm, kv ≠ (k0, v0) → fieldRule kv.1 kv.2 = true) :
    validateResult.range rq gm = validateResult.range rq [(k0, v0)] := by
  induction gm with
  | nil => simp at hmem
  | cons kv rest ih =>
    obtain ⟨k, v⟩ := kv
    have hreq : k ≠ keyRequest := by
      intro hk
      exact hno (by simp [groupMap.keys, hk])
    by_cases hkv : (k, v) = (k0, v0)
    · simp only [Prod.mk.injEq] at hkv
      obtain ⟨rfl, rfl⟩ := hkv
      exact validateResult.range_fail_indep rq k v rest [] hreq hf
    · have hpass := hothers (k, v) (List.mem_cons_self _ _) hkv
      rcases validateResult.range_step rq k v rest hreq with ⟨_, hs⟩ | ⟨hr, _⟩
      · rw [hs]
        refine ih ?_ ?_ ?_
        · intro hm
          exact hno (by simp only [groupMap.keys, List.map_cons, List.mem_cons]; exact Or.inr hm)
        · rcases List.mem_cons.mp hmem with h | h
          · exact absurd h.symm hkv
          · exact h
        · exact fun kv hkv2 => hothers kv (List.mem_cons_of_mem _ hkv2)
      · rw [hpass] at hr
        simp at hr

/-! ## Properties -/

/-- C1 (as stated, refuted): with the line `foo 200` and the candidates
`[(code,0)]`, `[(code,1)]`, both patterns are sorted and valid, the line
tokenizes into two tokens (enough for both), the mapping extracted with the
first fails `validateResult` and the mapping extracted with the second passes,
yet in every visiting order `newParser` returns no parser and the validation
error of the first pattern. -/
theorem newParser_does_not_skip_on_validation_failure :
    "foo 200" ≠ "" ∧
    csvPattern.isSorted [⟨keyCode, 0⟩] = true ∧ csvPattern.isValid [⟨keyCode, 0⟩] = true ∧
    csvPattern.isSorted [⟨keyCode, 1⟩] = true ∧ csvPattern.isValid [⟨keyCode, 1⟩] = true ∧
    tokens "foo 200" = .ok ["foo", "200"] ∧
    csvPattern.max [⟨keyCode, 0⟩] < 2 ∧ csvPattern.max [⟨keyCode, 1⟩] < 2 ∧
    validateResult [] (extract ["foo", "200"] [⟨keyCode, 0⟩]) =
      .ok (some (.badField keyCode "foo"), []) ∧
    validateResult [] (extract ["foo", "200"] [⟨keyCode, 1⟩]) = .ok (none, []) ∧
    ∀ ord : VisitOrder, newParser ord [] "foo 200" [[⟨keyCode, 0⟩], [⟨keyCode, 1⟩]] =
      .ok ((none, some (.badField keyCode "foo")), []) := by
  refine ⟨by decide, by decide, by decide, by decide, by decide, by decide, by decide,
    by decide, by decide, by decide, fun ord => ?_⟩
  rw [newParser_head ord [] "foo 200" [⟨keyCode, 0⟩] [[⟨keyCode, 1⟩]] ["foo", "200"]
    (by decide) (by decide) (by decide) (by decide) (by decide)]
  have hx : extract ["foo", "200"] [⟨keyCode, 0⟩] = [(keyCode, "foo")] := rfl
  rw [hx, ord.visit_singleton]
  rfl

/-- C1 (amended): for every non-empty line, every candidate list `[P1, P2]`
whose first pattern is sorted and valid and every order in which the extracted
mapping is visited, such that the line tokenizes with enough columns for `P1`
and the mapping extracted with `P1` fails `validateResult`, `newParser` returns
no parser and the error that `validateResult` returns on that mapping in that
order: the missing-code error or the error of one of its entries that fails the
rule of its key. A validation failure ends detection, `P2` is not tried. -/
theorem newParser_returns_validation_error (ord : VisitOrder) (rq : groupMap)
    (line : String) (P1 P2 : csvPattern) (lines : List String)
    (hline : line ≠ "") (hs : P1.isSorted = true) (hv : P1.isValid = true)
    (htok : tokens line = .ok lines) (hmax : P1.max < (lines.length : Int))
    (hval : ∃ e rq1, validateResult rq (extract lines P1) = .ok (some e, rq1)) :
    ∃ e rq1, newParser ord rq line [P1, P2] = .ok ((none, some e), rq1) ∧
      validateResult rq (ord.visit (extract lines P1)) = .ok (some e, rq1) ∧
      (e = .codeMissing ∨
        ∃ kv ∈ extract lines P1, fieldRule kv.1 kv.2 = false ∧
          ∃ rqa rqb, validateResult.range rqa [kv] = .ok (some e, rqb)) := by
  have hrej : ¬ (keyCode ∈ groupMap.keys (extract lines P1) ∧
      ∀ kv ∈ extract lines P1, fieldRule kv.1 kv.2 = true) :=
    (validateResult_rejects_iff rq (extract lines P1)).mp hval
  rcases validateResult_visit_cases ord rq (extract lines P1) with ⟨hacc, _⟩ | ⟨_, e, rq1, he⟩
  · exact absurd hacc hrej
  · refine ⟨e, rq1, ?_, he, ?_⟩
    · rw [newParser_head ord rq line P1 [P2] lines hline hs hv htok hmax, he]
    · unfold validateResult at he
      split_ifs at he
      · simp only [Except.ok.injEq, Prod.mk.injEq, Option.some.injEq] at he
        exact Or.inl he.1.symm
      · obtain ⟨kv, hkv, hf, hrest⟩ := validateResult.range_error_of_entry rq rq1 _ e he
        exact Or.inr ⟨kv, (ord.mem_visit _ kv).mp hkv, hf, hrest⟩

/-- Witness of C1 (amended) on the line `foo xyz` and the pattern
`[(code,0),(bytes_sent,1)]`, both of whose entries fail, visited against the
insertion order. -/
theorem newParser_returns_validation_error_witness :
    ∃ e rq1, newParser VisitOrder.reversed [] "foo xyz"
        [[⟨keyCode, 0⟩, ⟨keyBytesSent, 1⟩], [⟨keyCode, 1⟩]] = .ok ((none, some e), rq1) ∧
      validateResult [] (VisitOrder.reversed.visit
        (extract ["foo", "xyz"] [⟨keyCode, 0⟩, ⟨keyBytesSent, 1⟩])) = .ok (some e, rq1) ∧
      (e = .codeMissing ∨
        ∃ kv ∈ extract ["foo", "xyz"] [⟨keyCode, 0⟩, ⟨keyBytesSent, 1⟩],
          fieldRule kv.1 kv.2 = false ∧
          ∃ rqa rqb, validateResult.range rqa [kv] = .ok (some e, rqb)) :=
  newParser_returns_validation_error VisitOrder.reversed [] "foo xyz"
    [⟨keyCode, 0⟩, ⟨keyBytesSent, 1⟩] [⟨keyCode, 1⟩] ["foo", "xyz"]
    (by decide) (by decide) (by decide) (by decide) (by decide)
    ⟨.badField keyCode "foo", [], by decide⟩

/-- The error that `newParser` returns depends on the visiting order when more
than one entry fails: on the line `foo xyz` with `[(code,0),(bytes_sent,1)]` it
is the error of the `code` field in insertion order and the error of the
`bytes_sent` field in the opposite order. -/
theorem newParser_error_depends_on_order :
    newParser VisitOrder.insertion [] "foo xyz" [[⟨keyCode, 0⟩, ⟨keyBytesSent, 1⟩]] =
      .ok ((none, some (.badField keyCode "foo")), []) ∧
    newParser VisitOrder.reversed [] "foo xyz" [[⟨keyCode, 0⟩, ⟨keyBytesSent, 1⟩]] =
      .ok ((none, some (.badField keyBytesSent "xyz")), []) := by
  decide

/-- C2 (as stated, refuted): the pattern `[(address,0)]` is sorted and valid,
the line `1.2.3.4` tokenizes into one token, which is as many as the pattern
needs, and that token matches the rule of `address`; yet in every visiting
order `newParser` returns no parser and the error that the mandatory key `code`
is missing. -/
theorem newParser_rejects_fitting_pattern_without_code :
    csvPattern.isSorted [⟨keyAddress, 0⟩] = true ∧
    csvPattern.isValid [⟨keyAddress, 0⟩] = true ∧
    tokens "1.2.3.4" = .ok ["1.2.3.4"] ∧
    csvPattern.max [⟨keyAddress, 0⟩] < 1 ∧
    (∀ f ∈ ([⟨keyAddress, 0⟩] : csvPattern),
      fieldRule f.Key (List.getD ["1.2.3.4"] f.Index.toNat "") = true) ∧
    ∀ ord : VisitOrder,
      newParser ord [] "1.2.3.4" [[⟨keyAddress, 0⟩]] = .ok ((none, some .codeMissing), []) := by
  refine ⟨by decide, by decide, by decide, by decide, by decide, fun ord => ?_⟩
  rw [newParser_head ord [] "1.2.3.4" [⟨keyAddress, 0⟩] [] ["1.2.3.4"]
    (by decide) (by decide) (by decide) (by decide) (by decide)]
  have hx : extract ["1.2.3.4"] [⟨keyAddress, 0⟩] = [(keyAddress, "1.2.3.4")] := rfl
  rw [hx, ord.visit_singleton]
  rfl

/-- C2 (amended): for every sorted, valid pattern `P` that has a `code` pair and
every line that tokenizes into at least `max(column indices of P)+1` tokens such
that each token selected by `P` satisfies the rule of its key (so every key of
`P` is one of the validated keys, `request` with its composite rule), in every
visiting order `newParser(line, P)` returns no error and a parser bound to `P`, and parsing the
line with the returned parser yields a mapping whose key set is exactly the set
of keys of `P`, each key mapped to the token at its column index. -/
theorem newParser_binds_fitting_pattern (ord : VisitOrder) (rq : groupMap) (line : String)
    (P : csvPattern) (lines : List String)
    (hs : P.isSorted = true) (hv : P.isValid = true)
    (htok : tokens line = .ok lines) (hmax : P.max < (lines.length : Int))
    (hcode : keyCode ∈ P.map csvField.Key)
    (hrule : ∀ f ∈ P, fieldRule f.Key (lines.getD f.Index.toNat "") = true) :
    ∃ parser rq1, newParser ord rq line [P] = .ok ((some parser, none), rq1) ∧
      parser.pattern = P ∧
      ∃ gm cp, csvParser.parse parser line = .ok ((some gm, true), cp) ∧
        (∀ k, k ∈ groupMap.keys gm ↔ k ∈ P.map csvField.Key) ∧
        ∀ f ∈ P, groupMap.lookup gm f.Key = (lines.getD f.Index.toNat "", true) := by
  have hvalid := (csvPattern.isValid_iff P).mp hv
  have hline : line ≠ "" := by
    intro h
    subst h
    have hl : lines = [""] := by
      have h1 : tokens "" = .ok [""] := by decide
      rw [h1] at htok
      exact (Except.ok.inj htok).symm
    subst hl
    obtain ⟨f, hf, hk⟩ := List.mem_map.mp hcode
    have hr := hrule f hf
    have hd : List.getD [""] f.Index.toNat "" = "" := by
      cases f.Index.toNat <;> simp
    rw [hk, hd] at hr
    exact absurd hr (by decide)
  have hok : keyCode ∈ groupMap.keys (extract lines P) ∧
      ∀ kv ∈ extract lines P, fieldRule kv.1 kv.2 = true :=
    ⟨by rw [extract_keys]; exact hcode, by
      intro kv hkv
      obtain ⟨f, hf, rfl⟩ := List.mem_map.mp hkv
      exact hrule f hf⟩
  obtain ⟨rq1, hacc⟩ : ∃ rq1, validateResult rq (ord.visit (extract lines P)) =
      .ok (none, rq1) := by
    rcases validateResult_visit_cases ord rq (extract lines P) with ⟨_, h⟩ | ⟨h, _⟩
    · exact h
    · exact absurd hok h
  obtain ⟨d, hd, hkeys, _, hmine⟩ :=
    csvParser.parse_spec { (newCSVParser P) with data := extract lines P } line lines htok hmax
      hvalid.2.2
  refine ⟨{ (newCSVParser P) with data := extract lines P }, rq1, ?_, rfl, d, _, hd, ?_,
    hmine hvalid.2.1⟩
  · rw [newParser_head ord rq line P [] lines hline hs hv htok hmax, hacc]
  · intro k
    have hk : k ∈ groupMap.keys d ↔
        k ∈ groupMap.keys (extract lines P) ∨ k ∈ P.map csvField.Key := hkeys k
    rw [extract_keys, or_self] at hk
    exact hk

/-- Witness of C2 (amended) on the pattern `[(code,0)]` and the line `200`. -/
theorem newParser_binds_fitting_pattern_witness :
    ∃ parser rq1, newParser VisitOrder.reversed [] "200" [[⟨keyCode, 0⟩]] =
        .ok ((some parser, none), rq1) ∧
      parser.pattern = [⟨keyCode, 0⟩] ∧
      ∃ gm cp, csvParser.parse parser "200" = .ok ((some gm, true), cp) ∧
        (∀ k, k ∈ groupMap.keys gm ↔ k ∈ List.map csvField.Key [⟨keyCode, 0⟩]) ∧
        ∀ f ∈ ([⟨keyCode, 0⟩] : csvPattern),
          groupMap.lookup gm f.Key = (List.getD ["200"] f.Index.toNat "", true) :=
  newParser_binds_fitting_pattern VisitOrder.reversed [] "200" [⟨keyCode, 0⟩] ["200"]
    (by decide) (by decide) (by decide) (by decide) (by decide) (by decide)

/-- C3: with the pattern `[(address,0),(code,1),(bytes_sent,2)]` and the line
`192.168.1.1 200 1024`, which tokenizes into three tokens, `newParser` succeeds
(in every visiting order and whatever the scratch map of `reqParser`, which it
leaves as it was), and `parse` of that line on the returned parser returns ok
with the mapping `address: 192.168.1.1, code: 200, bytes_sent: 1024` and no
other keys. -/
theorem newParser_example_binds (ord : VisitOrder) (rq : groupMap) :
    tokens "192.168.1.1 200 1024" = .ok ["192.168.1.1", "200", "1024"] ∧
    ∃ parser, newParser ord rq "192.168.1.1 200 1024"
        [[⟨keyAddress, 0⟩, ⟨keyCode, 1⟩, ⟨keyBytesSent, 2⟩]] = .ok ((some parser, none), rq) ∧
      ∃ cp, csvParser.parse parser "192.168.1.1 200 1024" =
        .ok ((some [(keyAddress, "192.168.1.1"), (keyCode, "200"), (keyBytesSent, "1024")],
          true), cp) := by
  refine ⟨by decide,
    { pattern := [⟨keyAddress, 0⟩, ⟨keyCode, 1⟩, ⟨keyBytesSent, 2⟩]
      parser := (newCSVParser []).parser
      data := [(keyAddress, "192.168.1.1"), (keyCode, "200"), (keyBytesSent, "1024")] },
    ?_, ?_⟩
  · rw [newParser_head ord rq "192.168.1.1 200 1024"
      [⟨keyAddress, 0⟩, ⟨keyCode, 1⟩, ⟨keyBytesSent, 2⟩] [] ["192.168.1.1", "200", "1024"]
      (by decide) (by decide) (by decide) (by decide) (by decide)]
    have hx : extract ["192.168.1.1", "200", "1024"]
        [⟨keyAddress, 0⟩, ⟨keyCode, 1⟩, ⟨keyBytesSent, 2⟩] =
        [(keyAddress, "192.168.1.1"), (keyCode, "200"), (keyBytesSent, "1024")] := rfl
    rw [hx]
    rcases validateResult_visit_cases ord rq
        [(keyAddress, "192.168.1.1"), (keyCode, "200"), (keyBytesSent, "1024")] with
      ⟨_, rq1, h⟩ | ⟨h, _⟩
    · have hrq : rq1 = rq := validateResult_scratch_unchanged rq rq1 _ none h (by
        rw [VisitOrder.keys_visit]
        decide)
      rw [h, hrq]
      rfl
    · exact absurd (by decide) h
  · exact ⟨_, rfl⟩

/-- C4: with the pattern `[(address,0),(code,1),(bytes_sent,2)]` and the line
`192.168.1.1 99 1024`, in every visiting order `newParser` returns no parser and
the validation error of the `code` field with the value `99`, in which `reCode`
finds no match. -/
theorem newParser_example_rejects (ord : VisitOrder) (rq : groupMap) :
    reCode.MatchString "99" = false ∧
    newParser ord rq "192.168.1.1 99 1024"
        [[⟨keyAddress, 0⟩, ⟨keyCode, 1⟩, ⟨keyBytesSent, 2⟩]] =
      .ok ((none, some (.badField keyCode "99")), rq) := by
  refine ⟨by decide, ?_⟩
  rw [newParser_head ord rq "192.168.1.1 99 1024"
    [⟨keyAddress, 0⟩, ⟨keyCode, 1⟩, ⟨keyBytesSent, 2⟩] [] ["192.168.1.1", "99", "1024"]
    (by decide) (by decide) (by decide) (by decide) (by decide)]
  have hx : extract ["192.168.1.1", "99", "1024"]
      [⟨keyAddress, 0⟩, ⟨keyCode, 1⟩, ⟨keyBytesSent, 2⟩] =
      [(keyAddress, "192.168.1.1"), (keyCode, "99"), (keyBytesSent, "1024")] := rfl
  rw [hx]
  have hcode : (groupMap.lookup (ord.visit
      [(keyAddress, "192.168.1.1"), (keyCode, "99"), (keyBytesSent, "1024")]) keyCode).2 =
      true := by
    rw [groupMap.lookup_snd_eq_true_iff, VisitOrder.keys_visit]
    decide
  have hval : validateResult rq (ord.visit
      [(keyAddress, "192.168.1.1"), (keyCode, "99"), (keyBytesSent, "1024")]) =
      .ok (some (.badField keyCode "99"), rq) := by
    simp only [validateResult, hcode, Bool.not_true, Bool.false_eq_true, if_false]
    rw [validateResult.range_unique_failure rq _ keyCode "99"
      (by rw [VisitOrder.keys_visit]; decide)
      ((ord.mem_visit _ _).mpr (by decide)) (by decide)
      (by
        intro kv hkv hne
        have hm := (ord.mem_visit _ kv).mp hkv
        simp only [List.mem_cons, List.mem_singleton, List.not_mem_nil, or_false] at hm
        rcases hm with h | h | h
        · rw [h]; decide
        · exact absurd h hne
        · rw [h]; decide)]
    rfl
  rw [hval]

/-- C5 (as stated, refuted): the values `1234` and `x200y` are not three
decimal digits, yet `validateResult` accepts the mappings `code: 1234` and
`code: x200y`, because `reCode` is searched for anywhere in the value. -/
theorem validateResult_accepts_code_with_surrounding_text :
    codeRuleAsStated "1234" = false ∧
    validateResult [] [(keyCode, "1234")] = .ok (none, []) ∧
    codeRuleAsStated "x200y" = false ∧
    validateResult [] [(keyCode, "x200y")] = .ok (none, []) := by
  decide

/-- C5 (amended): for every string `v`, `validateResult` applied to the mapping
`code: v` returns no error if and only if `v` contains, at some position, three
consecutive decimal digits the first of which is between 1 and 9; otherwise it
returns the error of the `code` field. The value is not trimmed and the match
is not anchored, so `1234` and `x200y` are accepted. -/
theorem validateResult_code_iff (rq : groupMap) (v : String) :
    (validateResult rq [(keyCode, v)] = .ok (none, rq) ↔
      ∃ pre a b c post, v.toList = pre ++ a :: b :: c :: post ∧
        ('1' ≤ a ∧ a ≤ '9') ∧ ('0' ≤ b ∧ b ≤ '9') ∧ ('0' ≤ c ∧ c ≤ '9')) ∧
    (validateResult rq [(keyCode, v)] = .ok (some (.badField keyCode v), rq) ↔
      ¬ ∃ pre a b c post, v.toList = pre ++ a :: b :: c :: post ∧
        ('1' ≤ a ∧ a ≤ '9') ∧ ('0' ≤ b ∧ b ≤ '9') ∧ ('0' ≤ c ∧ c ≤ '9')) := by
  rw [← reCode_MatchString_iff]
  have h : validateResult rq [(keyCode, v)] =
      if reCode.MatchString v then .ok (none, rq) else .ok (some (.badField keyCode v), rq) := by
    cases hm : reCode.MatchString v <;>
      simp [validateResult, validateResult.range, groupMap.lookup, keyCode, keyUserDefined,
        keyVhost, hm]
  rw [h]
  cases reCode.MatchString v <;> simp

/-- C6: for every mapping that has a `code` key, whose `request` value is
`GET /index.html HTTP/1.1` and whose other entries (the `code` entry among
them) satisfy the rule of their key, `validateResult` returns no error; and the
request sub-parser, whatever its scratch map held before, splits that value
into `method = GET`, `url = /index.html`, `version = HTTP/1.1`, which from its
start-up state is the whole mapping it returns. -/
theorem validateResult_accepts_request_example (rq gm : groupMap)
    (hcode : keyCode ∈ groupMap.keys gm)
    (hall : ∀ kv ∈ gm, (kv.1 = keyRequest → kv.2 = "GET /index.html HTTP/1.1") ∧
      (kv.1 ≠ keyRequest → fieldRule kv.1 kv.2 = true)) :
    (∃ rq1, validateResult rq gm = .ok (none, rq1)) ∧
    (∃ m cp, csvParser.parse { reqParser with data := rq } "GET /index.html HTTP/1.1" =
        .ok ((some m, true), cp) ∧
      groupMap.lookup m keyMethod = ("GET", true) ∧
      groupMap.lookup m keyURL = ("/index.html", true) ∧
      groupMap.lookup m keyVersion = ("HTTP/1.1", true)) ∧
    ∃ cp, csvParser.parse reqParser "GET /index.html HTTP/1.1" =
      .ok ((some [(keyMethod, "GET"), (keyURL, "/index.html"), (keyVersion, "HTTP/1.1")],
        true), cp) := by
  have htok : reqParser.parser.ParseString "GET /index.html HTTP/1.1" =
      .ok ["GET", "/index.html", "HTTP/1.1"] := by decide
  refine ⟨?_, ?_, _, rfl⟩
  · refine (validateResult_accepts_iff rq gm).mpr ⟨hcode, ?_⟩
    intro kv hkv
    by_cases hk : kv.1 = keyRequest
    · rw [hk, (hall kv hkv).1 hk]
      decide
    · exact (hall kv hkv).2 hk
  · refine ⟨_, _, csvParser.parse_req_ok rq _ "GET" "/index.html" "HTTP/1.1" [] htok, ?_, ?_, ?_⟩
    · simp only [reqData]
      rw [groupMap.lookup_set_other _ _ _ _ (by decide),
        groupMap.lookup_set_other _ _ _ _ (by decide), groupMap.lookup_set_same]
    · simp only [reqData]
      rw [groupMap.lookup_set_other _ _ _ _ (by decide), groupMap.lookup_set_same]
    · simp only [reqData]
      rw [groupMap.lookup_set_same]

/-- Witness of C6 on the mapping `code: 200, request: GET /index.html HTTP/1.1`. -/
theorem validateResult_accepts_request_example_witness :
    (∃ rq1, validateResult []
      [(keyCode, "200"), (keyRequest, "GET /index.html HTTP/1.1")] = .ok (none, rq1)) ∧
    (∃ m cp, csvParser.parse { reqParser with data := [] } "GET /index.html HTTP/1.1" =
        .ok ((some m, true), cp) ∧
      groupMap.lookup m keyMethod = ("GET", true) ∧
      groupMap.lookup m keyURL = ("/index.html", true) ∧
      groupMap.lookup m keyVersion = ("HTTP/1.1", true)) ∧
    ∃ cp, csvParser.parse reqParser "GET /index.html HTTP/1.1" =
      .ok ((some [(keyMethod, "GET"), (keyURL, "/index.html"), (keyVersion, "HTTP/1.1")],
        true), cp) :=
  validateResult_accepts_request_example []
    [(keyCode, "200"), (keyRequest, "GET /index.html HTTP/1.1")] (by decide) (by decide)

/-- C7 (as stated, refuted): the mapping `code: 200,
request: BADMETHOD /x HTTP/1.1` has a valid code and that request value, yet
`validateResult` returns no error: `reHTTPMethod` finds a match in `BADMETHOD`,
which consists of upper-case letters. -/
theorem validateResult_accepts_uppercase_method :
    reCode.MatchString "200" = true ∧
    reHTTPMethod.MatchString "BADMETHOD" = true ∧
    validateResult [] [(keyCode, "200"), (keyRequest, "BADMETHOD /x HTTP/1.1")] =
      .ok (none, [(keyMethod, "BADMETHOD"), (keyURL, "/x"), (keyVersion, "HTTP/1.1")]) := by
  decide

/-- C7 (amended): for every mapping (with a valid code or not) that contains a
`request` value that tokenizes into at least three tokens the first of which
contains no upper-case letter `A`-`Z`, `validateResult` returns an error, and
the `request` case returns the error of the method sub-field; the value
`BADMETHOD /x HTTP/1.1` is not of that kind: the `request` case accepts it. -/
theorem validateResult_rejects_method_without_uppercase (rq gm : groupMap)
    (v m u ver : String) (rest : List String)
    (hreq : (keyRequest, v) ∈ gm)
    (htok : tokens v = .ok (m :: u :: ver :: rest))
    (hm : ∀ c ∈ m.toList, ¬ ('A' ≤ c ∧ c ≤ 'Z')) :
    (∃ e rq1, validateResult rq gm = .ok (some e, rq1)) ∧
    validateResult.request rq keyRequest v =
      .ok (some (.badField keyMethod m), reqData rq m u ver) ∧
    validateResult.request rq keyRequest "BADMETHOD /x HTTP/1.1" =
      .ok (none, reqData rq "BADMETHOD" "/x" "HTTP/1.1") := by
  have hmatch : reHTTPMethod.MatchString m = false := by
    rw [reHTTPMethod_MatchString, List.any_eq_false]
    intro c hc
    simpa using hm c hc
  refine ⟨?_, ?_, ?_⟩
  · refine (validateResult_rejects_iff rq gm).mpr ?_
    rintro ⟨_, hall⟩
    have hr := hall (keyRequest, v) hreq
    rw [fieldRule_request, requestRule_of_tokens v m u ver rest htok, hmatch] at hr
    simp at hr
  · rw [validateResult.request_of_tokens rq keyRequest v m u ver rest htok, hmatch]
    simp
  · rw [validateResult.request_of_tokens rq keyRequest _ "BADMETHOD" "/x" "HTTP/1.1" []
      (by decide)]
    have h1 : reHTTPMethod.MatchString "BADMETHOD" = true := by decide
    have h2 : reHTTPVersion.MatchString "HTTP/1.1" = true := by decide
    simp [h1, h2]

/-- Witness of C7 (amended) on the mapping `code: 200,
request: badmethod /x HTTP/1.1`. -/
theorem validateResult_rejects_method_without_uppercase_witness :
    (∃ e rq1, validateResult [] [(keyCode, "200"), (keyRequest, "badmethod /x HTTP/1.1")] =
      .ok (some e, rq1)) ∧
    validateResult.request [] keyRequest "badmethod /x HTTP/1.1" =
      .ok (some (.badField keyMethod "badmethod"), reqData [] "badmethod" "/x" "HTTP/1.1") ∧
    validateResult.request [] keyRequest "BADMETHOD /x HTTP/1.1" =
      .ok (none, reqData [] "BADMETHOD" "/x" "HTTP/1.1") :=
  validateResult_rejects_method_without_uppercase []
    [(keyCode, "200"), (keyRequest, "badmethod /x HTTP/1.1")]
    "badmethod /x HTTP/1.1" "badmethod" "/x" "HTTP/1.1" [] (by decide) (by decide) (by decide)

/-- C8 (as stated, refuted): the request value `GET /a HTTP/1.1 extra`
tokenizes into four tokens, yet `validateResult` accepts the mapping
`code: 200, request: GET /a HTTP/1.1 extra`; the fourth token is ignored. -/
theorem validateResult_accepts_request_with_extra_token :
    tokens "GET /a HTTP/1.1 extra" = .ok ["GET", "/a", "HTTP/1.1", "extra"] ∧
    validateResult [] [(keyCode, "200"), (keyRequest, "GET /a HTTP/1.1 extra")] =
      .ok (none, [(keyMethod, "GET"), (keyURL, "/a"), (keyVersion, "HTTP/1.1")]) := by
  decide

/-- C8 (amended): for every mapping with a `request` value, `validateResult`
returns no error only if the request value tokenizes into at least three
tokens (method, URL, version and possibly more). A request value that fails to
tokenize or has fewer than three tokens fails validation: `validateResult`
returns an error (it does not panic on the missing token), and the `request`
case returns the error that the field cannot be parsed, leaving the scratch map
of `reqParser` as it was. Tokens after the third are ignored: with at least
three tokens the `request` case accepts as soon as the first passes the method
rule and the third the version rule. -/
theorem validateResult_request_needs_three_tokens (rq gm : groupMap) (v : String)
    (hreq : (keyRequest, v) ∈ gm) :
    (∀ rq1, validateResult rq gm = .ok (none, rq1) →
      ∃ lines, tokens v = .ok lines ∧ 3 ≤ lines.length) ∧
    ((∀ lines, tokens v = .ok lines → lines.length < 3) →
      (∃ e rq1, validateResult rq gm = .ok (some e, rq1)) ∧
      validateResult.request rq keyRequest v = .ok (some (.unparsable keyRequest v), rq)) ∧
    (∀ m u ver rest, tokens v = .ok (m :: u :: ver :: rest) →
      reHTTPMethod.MatchString m = true → reHTTPVersion.MatchString ver = true →
      validateResult.request rq keyRequest v = .ok (none, reqData rq m u ver)) := by
  refine ⟨?_, ?_, ?_⟩
  · intro rq1 hacc
    have hall := ((validateResult_accepts_iff rq gm).mp ⟨rq1, hacc⟩).2 (keyRequest, v) hreq
    rw [fieldRule_request] at hall
    rcases tokens_cases v with ⟨m, u, ver, rest, h⟩ | h
    · exact ⟨_, h, by simp⟩
    · rw [requestRule_of_short v h] at hall
      simp at hall
  · intro hshort
    have hno : ∀ m u ver rest, reqParser.parser.ParseString v ≠ .ok (m :: u :: ver :: rest) := by
      intro m u ver rest h
      have hlen := hshort _ h
      simp only [List.length_cons] at hlen
      omega
    refine ⟨(validateResult_rejects_iff rq gm).mpr ?_,
      validateResult.request_of_short rq keyRequest v hno⟩
    rintro ⟨_, hall⟩
    have hr := hall (keyRequest, v) hreq
    rw [fieldRule_request, requestRule_of_short v hno] at hr
    simp at hr
  · intro m u ver rest htok hm hver
    rw [validateResult.request_of_tokens rq keyRequest v m u ver rest htok, hm, hver]
    simp

/-- Witness of C8 (amended) on the mapping `code: 200, request: GET /a`, whose
request value has two tokens. -/
theorem validateResult_request_needs_three_tokens_witness :
    (∀ rq1, validateResult [] [(keyCode, "200"), (keyRequest, "GET /a")] = .ok (none, rq1) →
      ∃ lines, tokens "GET /a" = .ok lines ∧ 3 ≤ lines.length) ∧
    ((∀ lines, tokens "GET /a" = .ok lines → lines.length < 3) →
      (∃ e rq1, validateResult [] [(keyCode, "200"), (keyRequest, "GET /a")] =
        .ok (some e, rq1)) ∧
      validateResult.request [] keyRequest "GET /a" =
        .ok (some (.unparsable keyRequest "GET /a"), [])) ∧
    (∀ m u ver rest, tokens "GET /a" = .ok (m :: u :: ver :: rest) →
      reHTTPMethod.MatchString m = true → reHTTPVersion.MatchString ver = true →
      validateResult.request [] keyRequest "GET /a" = .ok (none, reqData [] m u ver)) :=
  validateResult_request_needs_three_tokens [] [(keyCode, "200"), (keyRequest, "GET /a")]
    "GET /a" (by decide)

/-- A request value with two tokens and one that does not tokenize both make
`validateResult` return the error that the `request` field cannot be parsed. -/
theorem validateResult_short_request_examples :
    tokens "GET /a" = .ok ["GET", "/a"] ∧
    validateResult [] [(keyCode, "200"), (keyRequest, "GET /a")] =
      .ok (some (.unparsable keyRequest "GET /a"), []) ∧
    tokens (String.mk [csvparser.quote]) = .error .unterminatedQuote ∧
    validateResult [] [(keyCode, "200"), (keyRequest, String.mk [csvparser.quote])] =
      .ok (some (.unparsable keyRequest (String.mk [csvparser.quote])), []) := by
  decide

/-- C9: for every mapping that has no `code` key, `validateResult` returns the
error that the mandatory key is missing, whatever the other keys and values
are; and for every line and every pattern that has no `code` pair,
`newParser(line, P)` returns an error and no parser, in every visiting order. -/
theorem validateResult_requires_code (ord : VisitOrder) (rq gm : groupMap) (line : String)
    (P : csvPattern)
    (hgm : groupMap.has gm keyCode = false) (hP : keyCode ∉ P.map csvField.Key) :
    validateResult rq gm = .ok (some .codeMissing, rq) ∧
    ∃ e, newParser ord rq line [P] = .ok ((none, some e), rq) := by
  constructor
  · simp only [groupMap.has] at hgm
    simp [validateResult, hgm]
  · by_cases hline : line = ""
    · exact ⟨.emptyLine, by simp [newParser, hline]⟩
    simp only [newParser, hline, if_false]
    by_cases hs : P.isSorted = true
    · by_cases hv : P.isValid = true
      · rcases csvParser.parse_isOk P line hv with h | ⟨lines, h1, h2, _⟩
        · refine ⟨.noParser, ?_⟩
          simp [newParser.range, hs, hv, h]
        · refine ⟨.codeMissing, ?_⟩
          have hno : (groupMap.lookup (ord.visit (extract lines P)) keyCode).2 = false := by
            cases hl : (groupMap.lookup (ord.visit (extract lines P)) keyCode).2
            · rfl
            · rw [groupMap.lookup_snd_eq_true_iff, VisitOrder.keys_visit, extract_keys] at hl
              exact absurd hl hP
          rw [newParser.range_head ord rq line P [] lines hs hv h1 h2]
          simp [validateResult, hno]
      · exact ⟨.notValid P, by simp [newParser.range, hs, hv]⟩
    · exact ⟨.notSorted P, by simp [newParser.range, hs]⟩

/-- Witness of C9 on the mapping `address: 1.2.3.4` and the pattern
`[(address,0)]` with the line `1.2.3.4`. -/
theorem validateResult_requires_code_witness :
    validateResult [] [(keyAddress, "1.2.3.4")] = .ok (some .codeMissing, []) ∧
    ∃ e, newParser VisitOrder.reversed [] "1.2.3.4" [[⟨keyAddress, 0⟩]] =
      .ok ((none, some e), []) :=
  validateResult_requires_code VisitOrder.reversed [] [(keyAddress, "1.2.3.4")] "1.2.3.4"
    [⟨keyAddress, 0⟩] (by decide) (by decide)

/-- C10: for every mapping that contains at least one key that is not a
recognized field key, `validateResult` returns an error, even when `code` is
present and the value of every recognized key is well-formed. -/
theorem validateResult_rejects_unrecognized_key (rq gm : groupMap) (k : String)
    (hk : k ∈ groupMap.keys gm) (hun : k ∉ fieldKeys) :
    ∃ e rq1, validateResult rq gm = .ok (some e, rq1) := by
  refine (validateResult_rejects_iff rq gm).mpr ?_
  rintro ⟨_, hall⟩
  obtain ⟨v, hv⟩ := groupMap.exists_of_mem_keys gm k hk
  have hr := hall (k, v) hv
  rw [fieldRule_of_not_fieldKey k v hun] at hr
  simp at hr

/-- Witness of C10 on the mapping `code: 200, referer: x`. -/
theorem validateResult_rejects_unrecognized_key_witness :
    ∃ e rq1, validateResult [] [(keyCode, "200"), ("referer", "x")] = .ok (some e, rq1) :=
  validateResult_rejects_unrecognized_key [] [(keyCode, "200"), ("referer", "x")] "referer"
    (by decide) (by decide)

/-- C11: for every list of candidate patterns (the empty list and lists with
unsorted or invalid patterns included) and every scratch state of `reqParser`,
`newParser` on the empty line returns no parser and the `empty line` error and
leaves `reqParser` as it was; the result does not depend on the patterns. -/
theorem newParser_empty_line (ord : VisitOrder) (rq : groupMap)
    (patterns : List csvPattern) :
    newParser ord rq "" patterns = .ok ((none, some .emptyLine), rq) := by
  simp [newParser]

/-- C12 (as stated, refuted): the line `200` is not empty and the second
candidate `[(address,1),(code,0)]` is not sorted, yet in every visiting order
`newParser` returns no error: it binds the first candidate `[(code,0)]` and
never examines the second. -/
theorem newParser_binds_before_bad_pattern :
    "200" ≠ "" ∧
    csvPattern.isSorted [⟨keyAddress, 1⟩, ⟨keyCode, 0⟩] = false ∧
    ∀ ord : VisitOrder,
      newParser ord [] "200" [[⟨keyCode, 0⟩], [⟨keyAddress, 1⟩, ⟨keyCode, 0⟩]] =
        .ok ((some { pattern := [⟨keyCode, 0⟩], parser := (newCSVParser []).parser,
                     data := [(keyCode, "200")] }, none), []) := by
  refine ⟨by decide, by decide, fun ord => ?_⟩
  rw [newParser_head ord [] "200" [⟨keyCode, 0⟩] [[⟨keyAddress, 1⟩, ⟨keyCode, 0⟩]] ["200"]
    (by decide) (by decide) (by decide) (by decide) (by decide)]
  have hx : extract ["200"] [⟨keyCode, 0⟩] = [(keyCode, "200")] := rfl
  rw [hx, ord.visit_singleton]
  rfl

/-- C12 (amended): for every non-empty line and every candidate list in which
an unsorted or structurally invalid pattern is preceded only by sorted, valid
patterns that the line does not fit (it fails to tokenize or has too few
columns for them), `newParser` binds no parser and returns the configuration
error of that pattern (not sorted, else not valid), whatever follows it; the
rejection happens before the line is tokenized against that pattern. -/
theorem newParser_rejects_bad_pattern (ord : VisitOrder) (rq : groupMap) (line : String)
    (pre : List csvPattern) (bad : csvPattern) (post : List csvPattern)
    (hline : line ≠ "")
    (hpre : ∀ P ∈ pre, P.isSorted = true ∧ P.isValid = true ∧
      ∀ lines, tokens line = .ok lines → (lines.length : Int) ≤ P.max)
    (hbad : bad.isSorted = false ∨ bad.isValid = false) :
    newParser ord rq line (pre ++ bad :: post) =
      .ok ((none, some (if bad.isSorted then .notValid bad else .notSorted bad)), rq) := by
  simp only [newParser, hline, if_false,
    newParser.range_skip_all ord rq line pre (bad :: post) hpre]
  cases hs : bad.isSorted
  · simp [newParser.range, hs]
  · rcases hbad with h | h
    · rw [hs] at h
      simp at h
    · simp [newParser.range, hs, h]

/-- Witness of C12 (amended): the line `200` has too few columns for
`[(code,1)]`, and the next candidate `[(address,1),(code,0)]` is not sorted. -/
theorem newParser_rejects_bad_pattern_witness :
    newParser VisitOrder.insertion [] "200"
        ([[⟨keyCode, 1⟩]] ++ [⟨keyAddress, 1⟩, ⟨keyCode, 0⟩] :: [[⟨keyCode, 0⟩]]) =
      .ok ((none, some (if csvPattern.isSorted [⟨keyAddress, 1⟩, ⟨keyCode, 0⟩]
        then .notValid [⟨keyAddress, 1⟩, ⟨keyCode, 0⟩]
        else .notSorted [⟨keyAddress, 1⟩, ⟨keyCode, 0⟩])), []) :=
  newParser_rejects_bad_pattern VisitOrder.insertion [] "200" [[⟨keyCode, 1⟩]]
    [⟨keyAddress, 1⟩, ⟨keyCode, 0⟩] [[⟨keyCode, 0⟩]] (by decide)
    (by
      intro P hP
      rw [List.mem_singleton] at hP
      subst hP
      exact ⟨by decide, by decide,
        tokens_too_few "200" ["200"] [⟨keyCode, 1⟩] (by decide) (by decide)⟩)
    (by decide)

/-- C14: for every non-empty line and every list of sorted, valid candidate
patterns (the empty list included) such that for each of them the line either
fails to tokenize or has too few columns, `newParser` returns no parser and the
final no-match error, and leaves `reqParser` as it was. -/
theorem newParser_no_match (ord : VisitOrder) (rq : groupMap) (line : String)
    (patterns : List csvPattern)
    (hline : line ≠ "")
    (hall : ∀ P ∈ patterns, P.isSorted = true ∧ P.isValid = true ∧
      ∀ lines, tokens line = .ok lines → (lines.length : Int) ≤ P.max) :
    newParser ord rq line patterns = .ok ((none, some .noParser), rq) := by
  have h := newParser.range_skip_all ord rq line patterns [] hall
  rw [List.append_nil] at h
  simp only [newParser, hline, if_false, h, newParser.range]

/-- Witness of C14: the line `200` has too few columns for `[(code,1)]`. -/
theorem newParser_no_match_witness :
    newParser VisitOrder.insertion [] "200" [[⟨keyCode, 1⟩]] =
      .ok ((none, some .noParser), []) :=
  newParser_no_match VisitOrder.insertion [] "200" [[⟨keyCode, 1⟩]] (by decide)
    (by
      intro P hP
      rw [List.mem_singleton] at hP
      subst hP
      exact ⟨by decide, by decide,
        tokens_too_few "200" ["200"] [⟨keyCode, 1⟩] (by decide) (by decide)⟩)

/-- C13: for every parser whose pattern is structurally valid (unique keys, no
negative index; sortedness is not needed), in any scratch state, and every
line, `parse` returns ok if and only if the line tokenizes and the maximum
column index of the pattern is strictly less than the number of tokens; when
ok, the returned mapping maps every pattern key to the token at its column
index, with no content validation (the line `192.168.1.1 99 1024` parses); when
the line has too few tokens or does not tokenize, `parse` returns `(nil, false)`
and does not panic on an out-of-range index. -/
theorem parse_ok_iff_fits (cp : csvParser) (line : String)
    (hv : cp.pattern.isValid = true) :
    ((∃ gm cp1, csvParser.parse cp line = .ok ((gm, true), cp1)) ↔
      ∃ lines, cp.parser.ParseString line = .ok lines ∧
        cp.pattern.max < (lines.length : Int)) ∧
    (∀ lines, cp.parser.ParseString line = .ok lines →
      cp.pattern.max < (lines.length : Int) →
      ∃ d, csvParser.parse cp line = .ok ((some d, true), { cp with data := d }) ∧
        ∀ f ∈ cp.pattern, groupMap.lookup d f.Key = (lines.getD f.Index.toNat "", true)) ∧
    (∀ lines, cp.parser.ParseString line = .ok lines →
      (lines.length : Int) ≤ cp.pattern.max →
      csvParser.parse cp line = .ok ((none, false), cp)) ∧
    (∀ e, cp.parser.ParseString line = .error e →
      csvParser.parse cp line = .ok ((none, false), cp)) ∧
    ∃ cp1, csvParser.parse (newCSVParser [⟨keyAddress, 0⟩, ⟨keyCode, 1⟩, ⟨keyBytesSent, 2⟩])
        "192.168.1.1 99 1024" =
      .ok ((some [(keyAddress, "192.168.1.1"), (keyCode, "99"), (keyBytesSent, "1024")],
        true), cp1) := by
  have hvalid := (csvPattern.isValid_iff cp.pattern).mp hv
  have hfit : ∀ lines, cp.parser.ParseString line = .ok lines →
      cp.pattern.max < (lines.length : Int) →
      ∃ d, csvParser.parse cp line = .ok ((some d, true), { cp with data := d }) ∧
        ∀ f ∈ cp.pattern, groupMap.lookup d f.Key = (lines.getD f.Index.toNat "", true) := by
    intro lines htok hmax
    obtain ⟨d, hd, _, _, hmine⟩ := csvParser.parse_spec cp line lines htok hmax hvalid.2.2
    exact ⟨d, hd, hmine hvalid.2.1⟩
  refine ⟨?_, hfit, fun lines htok hle => csvParser.parse_short cp line lines htok hle,
    fun e htok => csvParser.parse_tokenize_error cp line e htok, _, rfl⟩
  constructor
  · rintro ⟨gm, cp1, h⟩
    cases htok : cp.parser.ParseString line with
    | error e =>
      rw [csvParser.parse_tokenize_error cp line e htok] at h
      simp at h
    | ok lines =>
      by_cases hmax : cp.pattern.max < (lines.length : Int)
      · exact ⟨lines, rfl, hmax⟩
      · rw [csvParser.parse_short cp line lines htok (by omega)] at h
        simp at h
  · rintro ⟨lines, htok, hmax⟩
    obtain ⟨d, hd, _⟩ := hfit lines htok hmax
    exact ⟨_, _, hd⟩

/-- Witness of C13 on the parser freshly made for `[(code,0)]` and the line
`200`. -/
theorem parse_ok_iff_fits_witness :
    (∃ gm cp1, csvParser.parse (newCSVParser [⟨keyCode, 0⟩]) "200" = .ok ((gm, true), cp1)) ↔
      ∃ lines, (newCSVParser [⟨keyCode, 0⟩]).parser.ParseString "200" = .ok lines ∧
        (newCSVParser [⟨keyCode, 0⟩]).pattern.max < (lines.length : Int) :=
  (parse_ok_iff_fits (newCSVParser [⟨keyCode, 0⟩]) "200" (by decide)).1

/-- C15: for every parser whose pattern is structurally valid, in any scratch
state, and every line, two calls of `parse` in a row with the same line both
return, with the same ok flag, and when ok with mappings of equal contents:
every key has the same presence and value in both. -/
theorem parse_twice_same (cp : csvParser) (line : String)
    (hv : cp.pattern.isValid = true) :
    ∃ r1 r2 ok cp1 cp2,
      csvParser.parse cp line = .ok ((r1, ok), cp1) ∧
      csvParser.parse cp1 line = .ok ((r2, ok), cp2) ∧
      (ok = false → r1 = none ∧ r2 = none) ∧
      (ok = true → ∃ d1 d2, r1 = some d1 ∧ r2 = some d2 ∧
        ∀ k, groupMap.lookup d2 k = groupMap.lookup d1 k) := by
  have hvalid := (csvPattern.isValid_iff cp.pattern).mp hv
  cases htok : cp.parser.ParseString line with
  | error e =>
    have h := csvParser.parse_tokenize_error cp line e htok
    exact ⟨none, none, false, cp, cp, h, h, fun _ => ⟨rfl, rfl⟩, fun h => by simp at h⟩
  | ok lines =>
    by_cases hmax : cp.pattern.max < (lines.length : Int)
    · obtain ⟨d1, hd1, _, _, hmine1⟩ :=
        csvParser.parse_spec cp line lines htok hmax hvalid.2.2
      obtain ⟨d2, hd2, _, hother2, hmine2⟩ :=
        csvParser.parse_spec { cp with data := d1 } line lines htok hmax hvalid.2.2
      refine ⟨some d1, some d2, true, _, _, hd1, hd2, fun h => by simp at h,
        fun _ => ⟨d1, d2, rfl, rfl, ?_⟩⟩
      intro k
      by_cases hk : k ∈ cp.pattern.map csvField.Key
      · obtain ⟨f, hf, rfl⟩ := List.mem_map.mp hk
        rw [hmine1 hvalid.2.1 f hf]
        exact hmine2 hvalid.2.1 f hf
      · exact hother2 k hk
    · have h := csvParser.parse_short cp line lines htok (by omega)
      exact ⟨none, none, false, cp, cp, h, h, fun _ => ⟨rfl, rfl⟩, fun h => by simp at h⟩

/-- Witness of C15 on the parser freshly made for `[(code,0)]` and the line
`200`. -/
theorem parse_twice_same_witness :
    ∃ r1 r2 ok cp1 cp2,
      csvParser.parse (newCSVParser [⟨keyCode, 0⟩]) "200" = .ok ((r1, ok), cp1) ∧
      csvParser.parse cp1 "200" = .ok ((r2, ok), cp2) ∧
      (ok = false → r1 = none ∧ r2 = none) ∧
      (ok = true → ∃ d1 d2, r1 = some d1 ∧ r2 = some d2 ∧
        ∀ k, groupMap.lookup d2 k = groupMap.lookup d1 k) :=
  parse_twice_same (newCSVParser [⟨keyCode, 0⟩]) "200" (by decide)

/-- C18: for every parser and every line on which `parse` returns not-ok, the
returned mapping is `nil` and the parser, its scratch mapping included, is
exactly as it was before the call, so the scratch mapping still holds the
values of the last line parsed with success. -/
theorem parse_not_ok_keeps_scratch (cp cp1 : csvParser) (line : String)
    (r : Option groupMap)
    (h : csvParser.parse cp line = .ok ((r, false), cp1)) :
    r = none ∧ cp1 = cp ∧ cp1.data = cp.data := by
  have key : r = none ∧ cp1 = cp := by
    unfold csvParser.parse at h
    split at h
    · simp only [Except.ok.injEq, Prod.mk.injEq] at h
      exact ⟨h.1.1.symm, h.2.symm⟩
    · split at h
      · simp only [Except.ok.injEq, Prod.mk.injEq] at h
        exact ⟨h.1.1.symm, h.2.symm⟩
      · split at h
        · simp at h
        · simp at h
  exact ⟨key.1, key.2, by rw [key.2]⟩

/-- Witness of C18: a parser for `[(code,1)]` whose scratch mapping holds
`code: 200` is given the one-token line `x`. -/
theorem parse_not_ok_keeps_scratch_witness :
    csvParser.parse usedParser "x" = .ok ((none, false), usedParser) ∧
    ((none : Option groupMap) = none ∧ usedParser = usedParser ∧
      usedParser.data = usedParser.data) :=
  ⟨by decide, parse_not_ok_keeps_scratch usedParser usedParser "x" none (by decide)⟩

/-- C16 (as stated, refuted): from the start-up state of the package-level
`reqParser`, whose scratch map is empty, validating the mapping
`code: 200, request: GET / HTTP/1.1` returns no error and leaves the scratch
map of `reqParser` holding `method: GET, url: /, version: HTTP/1.1`: state
outside the argument has changed. -/
theorem validateResult_writes_reqParser :
    reqParser.data = [] ∧
    validateResult reqParser.data [(keyCode, "200"), (keyRequest, "GET / HTTP/1.1")] =
      .ok (none, [(keyMethod, "GET"), (keyURL, "/"), (keyVersion, "HTTP/1.1")]) ∧
    [(keyMethod, "GET"), (keyURL, "/"), (keyVersion, "HTTP/1.1")] ≠ reqParser.data := by
  decide

/-- C16 (amended): the only state outside its argument that `validateResult`
changes is the scratch map of the package-level `reqParser`: validating a
mapping that has no `request` key leaves that scratch map exactly as it was,
and validating any mapping changes it at most at the keys `method`, `url` and
`version`. -/
theorem validateResult_frame (rq rq1 gm : groupMap) (e : Option Error)
    (h : validateResult rq gm = .ok (e, rq1)) :
    (keyRequest ∉ groupMap.keys gm → rq1 = rq) ∧
    ∀ k, k ∉ subFieldKeys → groupMap.lookup rq1 k = groupMap.lookup rq k := by
  unfold validateResult at h
  split_ifs at h
  · simp only [Except.ok.injEq, Prod.mk.injEq] at h
    rw [← h.2]
    exact ⟨fun _ => rfl, fun _ _ => rfl⟩
  · exact validateResult.range_frame rq rq1 gm e h

/-- Witness of C16 (amended) on the mapping `code: 200, request: GET / HTTP/1.1`
and a scratch map that holds another key. -/
theorem validateResult_frame_witness :
    (keyRequest ∉ groupMap.keys [(keyCode, "200"), (keyRequest, "GET / HTTP/1.1")] →
      [("other", "x"), (keyMethod, "GET"), (keyURL, "/"), (keyVersion, "HTTP/1.1")] =
        [("other", "x")]) ∧
    ∀ k, k ∉ subFieldKeys →
      groupMap.lookup
        [("other", "x"), (keyMethod, "GET"), (keyURL, "/"), (keyVersion, "HTTP/1.1")] k =
      groupMap.lookup [("other", "x")] k :=
  validateResult_frame [("other", "x")]
    [("other", "x"), (keyMethod, "GET"), (keyURL, "/"), (keyVersion, "HTTP/1.1")]
    [(keyCode, "200"), (keyRequest, "GET / HTTP/1.1")] none (by decide)

/-- C19: for every mapping, every two scratch states of `reqParser` and every
two visiting orders of the keys, `validateResult` returns in both runs (it
never panics) and either accepts in both or returns an error in both: the
verdict is a function of the mapping alone. -/
theorem validateResult_verdict_independent (rq rq2 gm gm2 : groupMap)
    (hperm : gm.Perm gm2) :
    ((∃ rq1, validateResult rq gm = .ok (none, rq1)) ∧
      (∃ rq1, validateResult rq2 gm2 = .ok (none, rq1))) ∨
    ((∃ e rq1, validateResult rq gm = .ok (some e, rq1)) ∧
      (∃ e rq1, validateResult rq2 gm2 = .ok (some e, rq1))) := by
  have hiff : (keyCode ∈ groupMap.keys gm ∧ ∀ kv ∈ gm, fieldRule kv.1 kv.2 = true) ↔
      (keyCode ∈ groupMap.keys gm2 ∧ ∀ kv ∈ gm2, fieldRule kv.1 kv.2 = true) := by
    have hk : keyCode ∈ groupMap.keys gm ↔ keyCode ∈ groupMap.keys gm2 :=
      (hperm.map Prod.fst).mem_iff
    rw [hk]
    constructor
    · rintro ⟨h1, h2⟩
      exact ⟨h1, fun kv hkv => h2 kv (hperm.mem_iff.mpr hkv)⟩
    · rintro ⟨h1, h2⟩
      exact ⟨h1, fun kv hkv => h2 kv (hperm.mem_iff.mp hkv)⟩
  by_cases hacc : keyCode ∈ groupMap.keys gm ∧ ∀ kv ∈ gm, fieldRule kv.1 kv.2 = true
  · exact Or.inl ⟨(validateResult_accepts_iff rq gm).mpr hacc,
      (validateResult_accepts_iff rq2 gm2).mpr (hiff.mp hacc)⟩
  · exact Or.inr ⟨(validateResult_rejects_iff rq gm).mpr hacc,
      (validateResult_rejects_iff rq2 gm2).mpr (fun h => hacc (hiff.mpr h))⟩

/-- Witness of C19: the mapping `code: 200, request: GET / HTTP/1.1` visited in
its two orders, from an empty scratch map and from one left by an earlier
validation. -/
theorem validateResult_verdict_independent_witness :
    ((∃ rq1, validateResult [] [(keyCode, "200"), (keyRequest, "GET / HTTP/1.1")] =
        .ok (none, rq1)) ∧
      (∃ rq1, validateResult [(keyMethod, "x"), (keyURL, "y"), (keyVersion, "z")]
        [(keyRequest, "GET / HTTP/1.1"), (keyCode, "200")] = .ok (none, rq1))) ∨
    ((∃ e rq1, validateResult [] [(keyCode, "200"), (keyRequest, "GET / HTTP/1.1")] =
        .ok (some e, rq1)) ∧
      (∃ e rq1, validateResult [(keyMethod, "x"), (keyURL, "y"), (keyVersion, "z")]
        [(keyRequest, "GET / HTTP/1.1"), (keyCode, "200")] = .ok (some e, rq1))) :=
  validateResult_verdict_independent [] [(keyMethod, "x"), (keyURL, "y"), (keyVersion, "z")]
    [(keyCode, "200"), (keyRequest, "GET / HTTP/1.1")]
    [(keyRequest, "GET / HTTP/1.1"), (keyCode, "200")] (List.Perm.swap _ _ _)

/-- C17: for every parser, `info` returns `[` followed by the items `k:i` of
the pairs of its pattern, in pattern order, with `, ` between neighbours, and
followed by `]` (so `[]` for the empty pattern); a non-negative index is
rendered as the decimal digits that denote it, a negative one as `-` followed by
the rendering of its absolute value. -/
theorem info_renders_pattern (cp : csvParser) :
    cp.info =
      "[" ++ joinItems (cp.pattern.map (fun f => f.Key ++ ":" ++ toString f.Index)) ++ "]" ∧
    (∀ n : Nat, digitsValue (toString (n : Int)).toList = n ∧
      ∀ c ∈ (toString (n : Int)).toList, '0' ≤ c ∧ c ≤ '9') ∧
    (∀ n : Nat, toString (Int.negSucc n) = "-" ++ toString ((n + 1 : Nat) : Int)) ∧
    (newCSVParser []).info = "[]" ∧
    (newCSVParser [⟨keyAddress, 0⟩, ⟨keyCode, 1⟩, ⟨keyBytesSent, 12⟩]).info =
      "[address:0, code:1, bytes_sent:12]" := by
  refine ⟨?_, toString_nat_spec, fun _ => rfl, by decide, by decide⟩
  simp only [csvParser.info, intercalate_eq_joinItems]

/-- C20 (as stated, refuted): the mapping `code: 99, method: GET` contains
`code` and the top-level key `method`, yet visited in this order
`validateResult` returns the error of the `code` field, not the unknown-key
error: the first failing entry decides the error. -/
theorem validateResult_sub_field_key_other_error :
    keyCode ∈ groupMap.keys [(keyCode, "99"), (keyMethod, "GET")] ∧
    keyMethod ∈ groupMap.keys [(keyCode, "99"), (keyMethod, "GET")] ∧
    validateResult [] [(keyCode, "99"), (keyMethod, "GET")] =
      .ok (some (.badField keyCode "99"), []) ∧
    Error.badField keyCode "99" ≠ Error.unknownKey keyMethod := by
  decide

/-- C20 (amended): for every mapping that contains a top-level key `method`,
`url` or `version`, `validateResult` returns an error whatever the values are;
when `code` is present and every entry with another key satisfies the rule of
its key, that error is the unknown-key error of a sub-field key. The sub-field
keys are accepted only inside a `request` value: whatever the line and the
candidates, a parser returned by `newParser` is never bound to a pattern that
maps `method`, `url` or `version` to a column. -/
theorem validateResult_rejects_sub_field_key (rq gm : groupMap) (k : String)
    (hk : k ∈ subFieldKeys) (hmem : k ∈ groupMap.keys gm) :
    (∃ e rq1, validateResult rq gm = .ok (some e, rq1)) ∧
    (keyCode ∈ groupMap.keys gm →
      (∀ kv ∈ gm, kv.1 ∉ subFieldKeys → fieldRule kv.1 kv.2 = true) →
      ∃ k2 ∈ subFieldKeys, ∃ rq1, validateResult rq gm = .ok (some (.unknownKey k2), rq1)) ∧
    ∀ (ord : VisitOrder) (line : String) (patterns : List csvPattern) (parser : csvParser)
      (err : Option Error) (rq1 : groupMap),
      newParser ord rq line patterns = .ok ((some parser, err), rq1) →
      k ∉ parser.pattern.map csvField.Key := by
  obtain ⟨v, hv⟩ := groupMap.exists_of_mem_keys gm k hmem
  refine ⟨?_, ?_, ?_⟩
  · refine (validateResult_rejects_iff rq gm).mpr ?_
    rintro ⟨_, hall⟩
    have hr := hall (k, v) hv
    rw [fieldRule_subField k v hk] at hr
    simp at hr
  · intro hcode hall
    have hc : (groupMap.lookup gm keyCode).2 = true :=
      (groupMap.lookup_snd_eq_true_iff gm keyCode).mpr hcode
    simp only [validateResult, hc, Bool.not_true, Bool.false_eq_true, if_false]
    exact validateResult.range_subField rq gm ⟨(k, v), hv, hk⟩ hall
  · intro ord line patterns parser err rq1 h hin
    by_cases hline : line = ""
    · simp [newParser, hline] at h
    · simp only [newParser, hline, if_false] at h
      obtain ⟨lines, _, _, _, _, _, _, hacc, _⟩ :=
        newParser.range_bound ord rq rq1 line patterns parser err h
      have hall := ((validateResult_accepts_iff rq _).mp ⟨rq1, hacc⟩).2
      obtain ⟨f, hf, hfk⟩ := List.mem_map.mp hin
      have hr := hall (f.Key, lines.getD f.Index.toNat "")
        ((ord.mem_visit _ _).mpr (List.mem_map.mpr ⟨f, hf, rfl⟩))
      rw [hfk, fieldRule_subField k _ hk] at hr
      simp at hr

/-- Witness of C20 (amended) on the mapping `code: 200, method: GET`. -/
theorem validateResult_rejects_sub_field_key_witness :
    (∃ e rq1, validateResult [] [(keyCode, "200"), (keyMethod, "GET")] = .ok (some e, rq1)) ∧
    (keyCode ∈ groupMap.keys [(keyCode, "200"), (keyMethod, "GET")] →
      (∀ kv ∈ ([(keyCode, "200"), (keyMethod, "GET")] : groupMap),
        kv.1 ∉ subFieldKeys → fieldRule kv.1 kv.2 = true) →
      ∃ k2 ∈ subFieldKeys, ∃ rq1,
        validateResult [] [(keyCode, "200"), (keyMethod, "GET")] =
          .ok (some (.unknownKey k2), rq1)) ∧
    ∀ (ord : VisitOrder) (line : String) (patterns : List csvPattern) (parser : csvParser)
      (err : Option Error) (rq1 : groupMap),
      newParser ord [] line patterns = .ok ((some parser, err), rq1) →
      keyMethod ∉ parser.pattern.map csvField.Key :=
  validateResult_rejects_sub_field_key [] [(keyCode, "200"), (keyMethod, "GET")] keyMethod
    (by decide) (by decide)

end weblog
